import Mathlib

/-!
Verification of the unused-code remover in `css.py` (class `UnusedCodeRemover`).

Text is modelled as `List Char` (`Str`), mirroring Python strings.  Python
regular expressions are modelled by executable backtracking matchers that
follow the pattern text of the source character by character.  Python sets of
strings are modelled as lists; only membership and emptiness are ever used by
the source, so duplication and order are irrelevant.
-/

abbrev Str := List Char

/-- Python `\s` on the ASCII range (the inputs of interest are ASCII). -/
def isSpace (c : Char) : Bool :=
  c == ' ' || c == '\t' || c == '\n' || c == '\r' || c == '\x0b' || c == '\x0c'

/-- Python `\w` on the ASCII range: letters, digits, underscore. -/
def isWordChar (c : Char) : Bool :=
  ('a' ≤ c && c ≤ 'z') || ('A' ≤ c && c ≤ 'Z') || ('0' ≤ c && c ≤ '9') || c == '_'

/-- The two quote characters of the character class `["\x27]` in the patterns. -/
def isQuote (c : Char) : Bool :=
  c == '\x22' || c == '\x27'

/-- ASCII lower-casing, for `re.IGNORECASE` matching. -/
def toLowerA (c : Char) : Char :=
  if 'A' ≤ c && c ≤ 'Z' then Char.ofNat (c.toNat + 32) else c

/-- Case-insensitive character comparison (`re.IGNORECASE`). -/
def ciEq (a b : Char) : Bool :=
  toLowerA a == toLowerA b

/-- Literal prefix test (case-sensitive). -/
def startsWith : Str → Str → Bool
  | [], _ => true
  | _ :: _, [] => false
  | p :: ps, c :: cs => p == c && startsWith ps cs

/-- Literal prefix test under `re.IGNORECASE`. -/
def ciStartsWith : Str → Str → Bool
  | [], _ => true
  | _ :: _, [] => false
  | p :: ps, c :: cs => ciEq p c && ciStartsWith ps cs

/-- Python substring containment `needle in haystack`. -/
def isSubstr (p : Str) : Str → Bool
  | [] => startsWith p []
  | c :: cs => startsWith p (c :: cs) || isSubstr p cs

/-- Number of occurrences of a character, Python `line.count(c)`. -/
def countCh (c : Char) : Str → Nat
  | [] => 0
  | x :: r => (if x == c then 1 else 0) + countCh c r

/-- Python `str.split(sep)` for a one-character separator. -/
def splitOnChar (sep : Char) : Str → List Str
  | [] => [[]]
  | c :: rest =>
    if c == sep then [] :: splitOnChar sep rest
    else
      match splitOnChar sep rest with
      | [] => [[c]]
      | l :: ls => (c :: l) :: ls

/-- Python `sep.join(parts)` for a one-character separator. -/
def joinWith (sep : Char) : List Str → Str
  | [] => []
  | [l] => l
  | l :: m :: rest => l ++ sep :: joinWith sep (m :: rest)

/-- `content.split('\n')` as used by both removers. -/
def splitLines (s : Str) : List Str := splitOnChar '\n' s

/-- `'\n'.join(lines)` as used by both removers. -/
def joinLines (ls : List Str) : Str := joinWith '\n' ls

/-- Python `str.strip()`. -/
def strip (s : Str) : Str :=
  ((s.dropWhile isSpace).reverse.dropWhile isSpace).reverse

/- ## The JS line remover (`remove_unused_js_code`, css.py lines 209-233) -/

/-- Backtracking `\s*` followed by the continuation `k` (Python regex star). -/
def spacesStar (k : Str → Bool) : Str → Bool
  | [] => k []
  | c :: cs => k (c :: cs) || (isSpace c && spacesStar k cs)

/-- Backtracking `\s+` followed by the continuation `k`. -/
def spacesPlus (k : Str → Bool) : Str → Bool
  | [] => false
  | c :: cs => isSpace c && spacesStar k cs

/-- Head of the remaining input is the given character. -/
def headIs (c : Char) : Str → Bool
  | [] => false
  | x :: _ => x == c

/-- Head of the remaining input is `=` or `;` (the class `[=;]`). -/
def headIsEqOrSemi : Str → Bool
  | [] => false
  | x :: _ => x == '=' || x == ';'

/-- The keyword `function` of the declaration patterns. -/
def kwFunction : Str := 'f' :: 'u' :: 'n' :: 'c' :: 't' :: 'i' :: 'o' :: 'n' :: []

/-- The keyword `var`. -/
def kwVar : Str := 'v' :: 'a' :: 'r' :: []

/-- The keyword `let`. -/
def kwLet : Str := 'l' :: 'e' :: 't' :: []

/-- The keyword `const`. -/
def kwConst : Str := 'c' :: 'o' :: 'n' :: 's' :: 't' :: []

/-- A literal (a keyword or an escaped name) followed by the rest of the
    pattern. -/
def litThen (kw : Str) (k : Str → Bool) (s : Str) : Bool :=
  startsWith kw s && k (s.drop kw.length)

/-- `re.search(rf'^\s*function\s+. NAME\s*\(', line)` from line 222. -/
def matchFnDeclLine (name line : Str) : Bool :=
  spacesStar
    (litThen kwFunction
      (spacesPlus (litThen name (spacesStar (headIs '(')))))
    line

/-- `re.search(rf'^\s*(?:var|let|const)\s+. NAME\s*[=;]', line)` from line 226. -/
def matchVarDeclLine (name line : Str) : Bool :=
  spacesStar
    (fun s =>
      litThen kwVar (spacesPlus (litThen name (spacesStar headIsEqOrSemi))) s ||
      litThen kwLet (spacesPlus (litThen name (spacesStar headIsEqOrSemi))) s ||
      litThen kwConst (spacesPlus (litThen name (spacesStar headIsEqOrSemi))) s)
    line

/-- The inner `for unused in unused_identifiers: ... break` loop of lines 220-228. -/
def jsShouldRemoveLoop (unused : List Str) (line : Str) : Bool :=
  match unused with
  | [] => false
  | u :: rest =>
    if matchFnDeclLine u line then true
    else if matchVarDeclLine u line then true
    else jsShouldRemoveLoop rest line

/-- The outer `for line in lines` loop of lines 217-231, appending kept lines. -/
def jsRemoveLoop (unused : List Str) : List Str → List Str
  | [] => []
  | line :: rest =>
    if jsShouldRemoveLoop unused line then jsRemoveLoop unused rest
    else line :: jsRemoveLoop unused rest

/-- `remove_unused_js_code` (css.py lines 209-233). -/
def remove_unused_js_code (js_content : Str) (unused_identifiers : List Str) : Str :=
  if unused_identifiers = [] then js_content
  else joinLines (jsRemoveLoop unused_identifiers (splitLines js_content))

/- ## The CSS block remover (`remove_unused_css_rules`, css.py lines 146-207) -/

/-- `re.sub(r':.*$', '', sel.strip())` from lines 173 and 192. -/
def cleanSel (sel : Str) : Str :=
  (strip sel).takeWhile (fun c => !(c == ':'))

/-- `any(unused in clean_sel for unused in unused_selectors)`. -/
def selCovered (unused : List Str) (sel : Str) : Bool :=
  unused.any (fun u => isSubstr u (cleanSel sel))

/-- The `has_used_selector` test of lines 170-176 and 190-195. -/
def hasUsedSelector (unused : List Str) (sels : List Str) : Bool :=
  sels.any (fun sel => !selCovered unused sel)

/-- `line.count('{') - line.count('}')` as a Python integer. -/
def braceDelta (line : Str) : Int :=
  (countCh '\x7b' line : Int) - (countCh '\x7d' line : Int)

/-- `'{' in line`. -/
def hasOpenBrace (line : Str) : Bool :=
  line.any (fun c => c == '\x7b')

/-- `[s.strip() for s in line[:line.find('{')].split(',')]` from lines 164-165. -/
def openerSelectors (line : Str) : List Str :=
  (splitOnChar ',' (line.takeWhile (fun c => !(c == '\x7b')))).map strip

/-- `any(unused in line for unused in unused_selectors)` from line 199. -/
def lineHasUnused (unused : List Str) (line : Str) : Bool :=
  unused.any (fun u => isSubstr u line)

/-- The `for i, line in enumerate(lines)` state machine of lines 158-205,
    with state `in_rule`, `brace_count`, `current_rule_selectors`. -/
def cssLoop (unused : List Str) : Bool → Int → List Str → List Str → List Str
  | _, _, _, [] => []
  | inRule, braceCount, curSels, line :: rest =>
    if !inRule && hasOpenBrace line then
      if hasUsedSelector unused (openerSelectors line) then
        line :: cssLoop unused true (braceDelta line) (openerSelectors line) rest
      else if braceDelta line = 0 then
        cssLoop unused false (braceDelta line) (openerSelectors line) rest
      else
        cssLoop unused true (braceDelta line) (openerSelectors line) rest
    else if inRule then
      if braceCount + braceDelta line = 0 then
        if hasUsedSelector unused curSels then
          line :: cssLoop unused false (braceCount + braceDelta line) curSels rest
        else
          cssLoop unused false (braceCount + braceDelta line) curSels rest
      else if lineHasUnused unused line then
        cssLoop unused inRule (braceCount + braceDelta line) curSels rest
      else
        line :: cssLoop unused inRule (braceCount + braceDelta line) curSels rest
    else
      line :: cssLoop unused inRule braceCount curSels rest

/-- `remove_unused_css_rules` (css.py lines 146-207). -/
def remove_unused_css_rules (css_content : Str) (unused_selectors : List Str) : Str :=
  if unused_selectors = [] then css_content
  else joinLines (cssLoop unused_selectors false 0 [] (splitLines css_content))

/- ## Comment stripping (css.py lines 65, 82-83) -/

/-- Drop input up to and including the first `*/`, the end of the non-greedy
    match of `/\*.*?\*/` (with `re.DOTALL`); `none` when no `*/` follows. -/
def dropToClose : Str → Option Str
  | [] => none
  | c :: r => if c == '*' && headIs '/' r then some r.tail else dropToClose r

/-- `re.sub(r'/\*.*?\*/', '', text, flags=re.DOTALL)`: remove each non-greedy
    block comment; an unclosed `/*` is not a match and stays.  The first
    argument counts characters of the current match still to be consumed,
    which keeps the recursion structural. -/
def stripBlockAux : Nat → Str → Str
  | skip + 1, _ :: rest => stripBlockAux skip rest
  | _ + 1, [] => []
  | 0, [] => []
  | 0, '/' :: '*' :: rest =>
    (match dropToClose rest with
     | some r => stripBlockAux (1 + (rest.length - r.length)) ('*' :: rest)
     | none => '/' :: '*' :: rest)
  | 0, c :: rest => c :: stripBlockAux 0 rest

/-- Removal of `/* … */` block comments (css.py lines 65 and 83). -/
def stripBlockComments (s : Str) : Str := stripBlockAux 0 s

/-- State-machine form of `re.sub(r'//.*?$', '', text, flags=re.MULTILINE)`:
    the flag records being inside a `//` comment (until the next newline). -/
def stripLineCommentsAux : Bool → Str → Str
  | _, [] => []
  | true, '\n' :: r => '\n' :: stripLineCommentsAux false r
  | true, _ :: r => stripLineCommentsAux true r
  | false, '/' :: '/' :: r => stripLineCommentsAux true r
  | false, c :: r => c :: stripLineCommentsAux false r

/-- Removal of `//`-to-end-of-line comments (css.py line 82). -/
def stripLineComments (s : Str) : Str := stripLineCommentsAux false s

/- ## Extraction (get_css_selectors / get_js_identifiers, css.py lines 60-93) -/

/-- ASCII letter. -/
def isAsciiLetter (c : Char) : Bool :=
  ('a' ≤ c && c ≤ 'z') || ('A' ≤ c && c ≤ 'Z')

/-- ASCII digit. -/
def isAsciiDigit (c : Char) : Bool :=
  '0' ≤ c && c ≤ '9'

/-- First character of a CSS selector name: `[a-zA-Z_-]`. -/
def isSelStart (c : Char) : Bool :=
  isAsciiLetter c || c == '_' || c == '-'

/-- Later character of a CSS selector name: `[a-zA-Z0-9_-]`. -/
def isSelCont (c : Char) : Bool :=
  isAsciiLetter c || isAsciiDigit c || c == '_' || c == '-'

/-- First character of a JS identifier: `[a-zA-Z_$]`. -/
def isJsStart (c : Char) : Bool :=
  isAsciiLetter c || c == '_' || c == '$'

/-- Later character of a JS identifier: `[a-zA-Z0-9_$]`. -/
def isJsCont (c : Char) : Bool :=
  isAsciiLetter c || isAsciiDigit c || c == '_' || c == '$'

/-- `re.findall` for `mark([a-zA-Z_-][a-zA-Z0-9_-]*)` with `mark` the literal
    `.` or `#`: left-to-right non-overlapping matches, greedy name, the scan
    resuming after each match; the emitted string includes the mark, matching
    the `f".{cls}"` / `f"#{id_}"` of css.py lines 69 and 73. -/
def scanSelAux (mark : Char) : Nat → Str → List Str
  | skip + 1, _ :: rest => scanSelAux mark skip rest
  | _ + 1, [] => []
  | 0, [] => []
  | 0, c :: rest =>
    if c == mark then
      match rest with
      | [] => []
      | d :: rest2 =>
        if isSelStart d then
          (mark :: d :: rest2.takeWhile isSelCont) ::
            scanSelAux mark ((rest2.takeWhile isSelCont).length + 1) rest
        else scanSelAux mark 0 rest
    else scanSelAux mark 0 rest

/-- `get_css_selectors` (css.py lines 60-75): strip block comments, then
    collect `.name` class selectors and `#name` id selectors. -/
def get_css_selectors (css_content : Str) : List Str :=
  let t := stripBlockComments css_content
  scanSelAux '.' 0 t ++ scanSelAux '#' 0 t

/-- `([a-zA-Z_$][a-zA-Z0-9_$]*)`: a greedy identifier at the head of the
    input; returns the identifier and the rest of the input. -/
def identStart : Str → Option (Str × Str)
  | [] => none
  | d :: ds =>
    if isJsStart d then some (d :: ds.takeWhile isJsCont, ds.dropWhile isJsCont)
    else none

/-- `\s+([a-zA-Z_$][a-zA-Z0-9_$]*)`: at least one space, then a greedy
    identifier; returns the identifier and the rest of the input. -/
def identAfterSpaces : Str → Option (Str × Str)
  | [] => none
  | c :: cs => if isSpace c then identStart (cs.dropWhile isSpace) else none

/-- One keyword alternative: the literal keyword, then `\s+(identifier)`. -/
def matchKwIdentAt (kw : Str) (s : Str) : Option (Str × Str) :=
  if startsWith kw s then identAfterSpaces (s.drop kw.length) else none

/-- Ordered alternation over a list of keywords (a Python regex alternation
    tried left to right at a fixed position). -/
def firstKwMatch (kws : List Str) (s : Str) : Option (Str × Str) :=
  match kws with
  | [] => none
  | kw :: rest =>
    match matchKwIdentAt kw s with
    | some r => some r
    | none => firstKwMatch rest s

/-- `re.findall` for `(?:kw1|kw2|…)\s+([a-zA-Z_$][a-zA-Z0-9_$]*)`:
    left-to-right non-overlapping matches, resuming after each match.  The
    `Nat` argument counts characters of the current match still to be
    consumed, keeping the recursion structural. -/
def scanIdentsAux (kws : List Str) : Nat → Str → List Str
  | skip + 1, _ :: rest => scanIdentsAux kws skip rest
  | _ + 1, [] => []
  | 0, [] => []
  | 0, c :: rest =>
    match firstKwMatch kws (c :: rest) with
    | some (name, after) =>
      name :: scanIdentsAux kws ((c :: rest).length - after.length - 1) rest
    | none => scanIdentsAux kws 0 rest

/-- `get_js_identifiers` (css.py lines 77-93): strip `//` comments, then
    block comments, then collect declared function and variable names. -/
def get_js_identifiers (js_content : Str) : List Str :=
  let t := stripBlockComments (stripLineComments js_content)
  scanIdentsAux [('f' :: 'u' :: 'n' :: 'c' :: 't' :: 'i' :: 'o' :: 'n' :: [])] 0 t ++
  scanIdentsAux
    [('v' :: 'a' :: 'r' :: []), ('l' :: 'e' :: 't' :: []), ('c' :: 'o' :: 'n' :: 's' :: 't' :: [])]
    0 t

/- ## Reference search (find_references_in_content, css.py lines 95-127) -/

/-- Whether an optional character is a word character (`\b` treats the ends
    of the string as non-word). -/
def isWordO : Option Char → Bool
  | none => false
  | some c => isWordChar c

/-- Python `\b`: a word boundary between a left and a right character. -/
def bndB (l r : Option Char) : Bool :=
  isWordO l != isWordO r

/-- Last character of a list, or a default when it is empty. -/
def lastOr (l : Str) (d : Option Char) : Option Char :=
  match l.getLast? with
  | some c => some c
  | none => d

/-- `[^"\x27]*["\x27]` by backtracking: some quote occurs, every character
    before the first place we stop being in the star is a non-quote. -/
def hasQuoteClose : Str → Bool
  | [] => false
  | c :: r => isQuote c || hasQuoteClose r

/-- `\bNAME\b[^"\x27]*["\x27]` at the current position, `prev` being the last
    character already consumed (the opening quote or an inner character). -/
def nameTail (name : Str) (prev : Char) (s : Str) : Bool :=
  bndB (some prev) s.head? &&
  ciStartsWith name s &&
  bndB (lastOr (s.take name.length) (some prev)) (s.drop name.length).head? &&
  hasQuoteClose (s.drop name.length)

/-- `[^"\x27]*\bNAME\b[^"\x27]*["\x27]` by backtracking: at each position try
    the name, otherwise consume one non-quote character. -/
def classInner (name : Str) : Char → Str → Bool
  | prev, [] => nameTail name prev []
  | prev, c :: rest => nameTail name prev (c :: rest) || (!isQuote c && classInner name c rest)

/-- `\s*` (maximal munch, valid because every continuation below starts
    with a non-space character) followed by the continuation. -/
def dropSpacesThen (k : Str → Bool) (s : Str) : Bool :=
  k (s.dropWhile isSpace)

/-- The literal character `c` followed by the continuation. -/
def eqCharThen (c : Char) (k : Str → Bool) : Str → Bool
  | [] => false
  | x :: rest => x == c && k rest

/-- One character of the class `["\x27]` followed by the continuation,
    which may look at which quote was read. -/
def quoteThen (k : Char → Str → Bool) : Str → Bool
  | [] => false
  | q :: rest => isQuote q && k q rest

/-- Head of the remaining input is a quote. -/
def headIsQuote : Str → Bool
  | [] => false
  | c :: _ => isQuote c

/-- `NAME["\x27]`: the (escaped, hence literal) name, case-insensitively,
    immediately followed by a closing quote. -/
def quotedExact (name : Str) (r : Str) : Bool :=
  ciStartsWith name r && headIsQuote (r.drop name.length)

/-- A case-insensitive literal keyword followed by the continuation. -/
def ciKwThen (kw : Str) (k : Str → Bool) (s : Str) : Bool :=
  ciStartsWith kw s && k (s.drop kw.length)

/-- `kw\s*=\s*["\x27][^"\x27]*\bNAME\b[^"\x27]*["\x27]` anchored at the start
    of `s`, case-insensitive (css.py lines 105-106 with kw `class` or
    `className`). -/
def attrPatAt (kw name : Str) (s : Str) : Bool :=
  ciKwThen kw
    (dropSpacesThen (eqCharThen '='
      (dropSpacesThen (quoteThen (fun q s3 => classInner name q s3))))) s

/-- `\s*\(\s*["\x27]NAME["\x27]` anchored at the start of `t`. -/
def quotedNameAt (name : Str) (t : Str) : Bool :=
  dropSpacesThen (eqCharThen '('
    (dropSpacesThen (quoteThen (fun _ r => quotedExact name r)))) t

/-- `\s*\(\s*["\x27]#NAME["\x27]` anchored at the start of `t`. -/
def quotedHashNameAt (name : Str) (t : Str) : Bool :=
  dropSpacesThen (eqCharThen '('
    (dropSpacesThen (quoteThen (fun _ r => eqCharThen '#' (quotedExact name) r)))) t

/-- `classList\.(?:add|remove|toggle|contains)\s*\(\s*["\x27]NAME["\x27]`
    anchored at the start of `s` (css.py line 107). -/
def classListAt (name : Str) (s : Str) : Bool :=
  ciKwThen ("classList.".data)
    (fun t =>
      ciKwThen ("add".data) (quotedNameAt name) t ||
      ciKwThen ("remove".data) (quotedNameAt name) t ||
      ciKwThen ("toggle".data) (quotedNameAt name) t ||
      ciKwThen ("contains".data) (quotedNameAt name) t) s

/-- `id\s*=\s*["\x27]NAME["\x27]` anchored at the start of `s` (line 118). -/
def idAttrAt (name : Str) (s : Str) : Bool :=
  ciKwThen ("id".data)
    (dropSpacesThen (eqCharThen '='
      (dropSpacesThen (quoteThen (fun _ r => quotedExact name r))))) s

/-- `re.search`: try the anchored pattern at every position. -/
def searchAt (p : Str → Bool) : Str → Bool
  | [] => p []
  | c :: rest => p (c :: rest) || searchAt p rest

/-- The three class patterns with the first-match-wins break
    (css.py lines 104-112). -/
def classRef (content cname : Str) : Bool :=
  if searchAt (attrPatAt ("class".data) cname) content then true
  else if searchAt (attrPatAt ("className".data) cname) content then true
  else if searchAt (classListAt cname) content then true
  else false

/-- The three id patterns with the first-match-wins break
    (css.py lines 117-125). -/
def idRef (content iname : Str) : Bool :=
  if searchAt (idAttrAt iname) content then true
  else if searchAt (ciKwThen ("getElementById".data) (quotedNameAt iname)) content then true
  else if searchAt (ciKwThen ("querySelector".data) (quotedHashNameAt iname)) content then true
  else false

/-- The per-selector body of the `for selector in selectors` loop of
    `find_references_in_content` (css.py lines 100-125): dispatch on the
    selector's leading `.` or `#`. -/
def selReferenced (content : Str) (selector : Str) : Bool :=
  match selector with
  | [] => false
  | m :: sname =>
    if m == '.' then classRef content sname
    else if m == '#' then idRef content sname
    else false

/-- `find_references_in_content` (css.py lines 95-127): the set of candidate
    selectors referenced by the corpus, modelled as the sublist of referenced
    candidates. -/
def find_references_in_content (content : Str) (selectors : List Str) : List Str :=
  selectors.filter (selReferenced content)

/- ## JS reference search (find_js_references, css.py lines 129-144) -/

/-- `re.search` where the anchored pattern may look at the character before
    the match position (needed by a leading `\b`). -/
def searchPrev (p : Option Char → Str → Bool) : Option Char → Str → Bool
  | prev, [] => p prev []
  | prev, c :: rest => p prev (c :: rest) || searchPrev p (some c) rest

/-- `\bNAME\s*\(` anchored at the current position (css.py line 136),
    case-sensitive. -/
def jsCallAt (name : Str) (prev : Option Char) (s : Str) : Bool :=
  bndB prev s.head? && startsWith name s &&
  headIs '(' ((s.drop name.length).dropWhile isSpace)

/-- Head of the remaining input is `=` or `:` (the lookahead class `[=:]`). -/
def headIsEqOrColon : Str → Bool
  | [] => false
  | x :: _ => x == '=' || x == ':'

/-- `\bNAME\b(?!\s*[=:])` anchored at the current position (css.py line 137),
    case-sensitive. -/
def jsUseAt (name : Str) (prev : Option Char) (s : Str) : Bool :=
  bndB prev s.head? && startsWith name s &&
  bndB (lastOr (s.take name.length) prev) (s.drop name.length).head? &&
  !(headIsEqOrColon ((s.drop name.length).dropWhile isSpace))

/-- The per-identifier body of the loop of `find_js_references`
    (css.py lines 133-142), first-match-wins over the two patterns. -/
def identReferenced (content : Str) (ident : Str) : Bool :=
  if searchPrev (jsCallAt ident) none content then true
  else if searchPrev (jsUseAt ident) none content then true
  else false

/-- `find_js_references` (css.py lines 129-144). -/
def find_js_references (content : Str) (identifiers : List Str) : List Str :=
  identifiers.filter (identReferenced content)

/- ## The per-file pipeline (process_files / log_changes, css.py 235-332) -/

/-- One entry of `changes_log` (css.py lines 323-331).  The wall-clock
    `timestamp` field is not modelled. -/
structure ChangeRecord where
  file_type : String
  unused_items : List Str
  original_size : Nat
  new_size : Nat
  bytes_saved : Int
deriving DecidableEq

/-- `log_changes` (css.py lines 320-332). -/
def log_changes (file_type : String) (unused_items : List Str)
    (original_size new_size : Nat) : ChangeRecord :=
  { file_type := file_type
    unused_items := unused_items
    original_size := original_size
    new_size := new_size
    bytes_saved := (original_size : Int) - (new_size : Int) }

/-- The corpus `all_content` (css.py lines 240-252): `""` then
    `+= f"\n{content}"` for every HTML file, then for every JS file. -/
def all_content (htmls jss : List Str) : Str :=
  (htmls ++ jss).foldl (fun acc c => acc ++ '\n' :: c) []

/-- The unused-selector set of one CSS file:
    `selectors - referenced_selectors` (css.py lines 263-269).  Since
    `find_references_in_content` is the candidates filtered by the
    per-selector test, the set difference is, membership-wise, the candidates
    failing that test. -/
def cssUnused (corpus content : Str) : List Str :=
  (get_css_selectors content).filter (fun s => !(selReferenced corpus s))

/-- The unused-identifier set of one JS file:
    `identifiers - referenced_identifiers` (css.py lines 296-302). -/
def jsUnused (corpus content : Str) : List Str :=
  (get_js_identifiers content).filter (fun s => !(identReferenced corpus s))

/-- The body of the per-CSS-file loop of `process_files` (css.py lines
    255-285): skip empty content; extract; find references; on a non-empty
    unused set remove, log, and write back.  The returned pair is the file's
    new content and the logged record (`none` when nothing was removed, in
    which case the file is also not written back). -/
def processCssFile (corpus content : Str) : Str × Option ChangeRecord :=
  if content = [] then (content, none)
  else if cssUnused corpus content = [] then (content, none)
  else
    (remove_unused_css_rules content (cssUnused corpus content),
     some (log_changes "CSS" (cssUnused corpus content) content.length
       (remove_unused_css_rules content (cssUnused corpus content)).length))

/-- The body of the per-JS-file loop of `process_files` (css.py lines
    288-318), analogous to `processCssFile`. -/
def processJsFile (corpus content : Str) : Str × Option ChangeRecord :=
  if content = [] then (content, none)
  else if jsUnused corpus content = [] then (content, none)
  else
    (remove_unused_js_code content (jsUnused corpus content),
     some (log_changes "JavaScript" (jsUnused corpus content) content.length
       (remove_unused_js_code content (jsUnused corpus content)).length))

/-- `process_files` (css.py lines 235-318): the corpus is the concatenation
    of all HTML and JS contents, snapshotted before any write; every CSS and
    then every JS file is processed against it. -/
def process_files (htmls csss jss : List Str) :
    List (Str × Option ChangeRecord) × List (Str × Option ChangeRecord) :=
  let corpus := all_content htmls jss
  (csss.map (processCssFile corpus), jss.map (processJsFile corpus))

/- ## Declarative pattern semantics
These propositions restate the source's regular expressions as explicit
string decompositions; the claim theorems relate the executable matchers to
them. -/

/-- Every character satisfies `\s`. -/
def AllSpace (l : Str) : Prop := ∀ c ∈ l, isSpace c = true

/-- Every character is outside the class `["\x27]`. -/
def NoQuote (l : Str) : Prop := ∀ c ∈ l, isQuote c = false

/-- The text matches the pattern literal character by character under
    `re.IGNORECASE`. -/
def CiEqList (pat txt : Str) : Prop := List.Forall₂ (fun a b => ciEq a b = true) pat txt

/-- The declarative form of `^\s*function\s+NAME\s*\(`: the line is leading
    whitespace, the keyword `function`, at least one whitespace character,
    the name, optional whitespace, and an opening parenthesis. -/
def FnDeclLineProp (name line : Str) : Prop :=
  ∃ sp spp sp2 rest, line = sp ++ kwFunction ++ spp ++ name ++ sp2 ++ '(' :: rest ∧
    AllSpace sp ∧ AllSpace spp ∧ spp ≠ [] ∧ AllSpace sp2

/-- The declarative form of `^\s*(?:var|let|const)\s+NAME\s*[=;]`. -/
def VarDeclLineProp (name line : Str) : Prop :=
  ∃ sp kw spp sp2 c rest, line = sp ++ kw ++ spp ++ name ++ sp2 ++ c :: rest ∧
    AllSpace sp ∧ (kw = kwVar ∨ kw = kwLet ∨ kw = kwConst) ∧
    AllSpace spp ∧ spp ≠ [] ∧ AllSpace sp2 ∧ (c = '=' ∨ c = ';')

/-- The declarative form of
    `kw\s*=\s*["\x27][^"\x27]*\bNAME\b[^"\x27]*["\x27]` matched at the start
    of `s`: keyword (case-insensitively), optional whitespace, `=`, optional
    whitespace, an opening quote, non-quote filler, the name
    (case-insensitively and flanked by word boundaries), non-quote filler,
    and a closing quote. -/
def ClassAttrAt (kw x s : Str) : Prop :=
  ∃ (kwt sp1 sp2 inner1 xm inner2 post : Str) (q q2 : Char),
    s = kwt ++ (sp1 ++ '=' :: (sp2 ++ q :: (inner1 ++ (xm ++ (inner2 ++ q2 :: post))))) ∧
    CiEqList kw kwt ∧ AllSpace sp1 ∧ AllSpace sp2 ∧ isQuote q = true ∧
    NoQuote inner1 ∧ CiEqList x xm ∧
    bndB (some (inner1.getLastD q)) ((xm ++ (inner2 ++ q2 :: post)).head?) = true ∧
    bndB (lastOr xm (some (inner1.getLastD q))) ((inner2 ++ q2 :: post).head?) = true ∧
    NoQuote inner2 ∧ isQuote q2 = true

/-- `re.search` of the attribute pattern: it matches at some position of the
    corpus. -/
def MatchesClassAttr (kw x corpus : Str) : Prop :=
  ∃ pre s, corpus = pre ++ s ∧ ClassAttrAt kw x s

/-- The declarative form of
    `classList\.(?:add|remove|toggle|contains)\s*\(\s*["\x27]NAME["\x27]`
    matched at the start of `s`. -/
def ClassListCallAt (x s : Str) : Prop :=
  ∃ (m kwt mt sp1 sp2 xm post : Str) (q q2 : Char),
    s = kwt ++ (mt ++ (sp1 ++ '(' :: (sp2 ++ q :: (xm ++ q2 :: post)))) ∧
    CiEqList ("classList.".data) kwt ∧
    (m = "add".data ∨ m = "remove".data ∨ m = "toggle".data ∨ m = "contains".data) ∧
    CiEqList m mt ∧ AllSpace sp1 ∧ AllSpace sp2 ∧
    isQuote q = true ∧ CiEqList x xm ∧ isQuote q2 = true

/-- `re.search` of the classList pattern: it matches at some position of the
    corpus. -/
def MatchesClassListCall (x corpus : Str) : Prop :=
  ∃ pre s, corpus = pre ++ s ∧ ClassListCallAt x s

/- ## Generic lemmas about the string utilities -/

theorem splitOnChar_ne_nil (sep : Char) (s : Str) : splitOnChar sep s ≠ [] := by
  cases s with
  | nil => simp [splitOnChar]
  | cons c rest =>
    simp only [splitOnChar]
    split
    · simp
    · split <;> simp

theorem joinWith_cons_head (sep c : Char) (x : Str) (xs : List Str) :
    joinWith sep ((c :: x) :: xs) = c :: joinWith sep (x :: xs) := by
  cases xs <;> rfl

/-- `'\n'.join(s.split('\n')) = s`: joining undoes splitting. -/
theorem joinWith_splitOnChar (sep : Char) (s : Str) :
    joinWith sep (splitOnChar sep s) = s := by
  induction s with
  | nil => rfl
  | cons c rest ih =>
    simp only [splitOnChar]
    split
    · next hEq =>
      have hc : c = sep := by
        exact beq_iff_eq.mp hEq
      cases hS : splitOnChar sep rest with
      | nil => exact absurd hS (splitOnChar_ne_nil sep rest)
      | cons x xs =>
        rw [hS] at ih
        subst hc
        show joinWith c ([] :: x :: xs) = c :: rest
        rw [show joinWith c ([] :: x :: xs) = c :: joinWith c (x :: xs) from rfl, ih]
    · cases hS : splitOnChar sep rest with
      | nil => exact absurd hS (splitOnChar_ne_nil sep rest)
      | cons x xs =>
        rw [hS] at ih
        rw [joinWith_cons_head, ih]

theorem joinWith_length_le_cons (sep : Char) (a : Str) (l : List Str) :
    (joinWith sep l).length ≤ (joinWith sep (a :: l)).length := by
  cases l with
  | nil => simp [joinWith]
  | cons b r =>
    show (joinWith sep (b :: r)).length ≤ (a ++ sep :: joinWith sep (b :: r)).length
    simp
    omega

/-- Joining a sublist of the lines gives a text no longer than joining all
    of them. -/
theorem joinWith_length_mono (sep : Char) {l₁ l₂ : List Str} (h : List.Sublist l₁ l₂) :
    (joinWith sep l₁).length ≤ (joinWith sep l₂).length := by
  induction h with
  | slnil => exact Nat.le_refl _
  | cons a h ih => exact ih.trans (joinWith_length_le_cons sep a _)
  | cons₂ a h ih =>
    rename_i l₁ l₂
    cases l₁ with
    | nil =>
      cases l₂ with
      | nil => exact Nat.le_refl _
      | cons y s =>
        show ([] ++ _ : Str).length ≤ (a ++ sep :: joinWith sep (y :: s)).length
        simp [joinWith]
    | cons x r =>
      cases l₂ with
      | nil => exact absurd h (by simp)
      | cons y s =>
        show (a ++ sep :: joinWith sep (x :: r)).length ≤
          (a ++ sep :: joinWith sep (y :: s)).length
        simp
        omega

/-- The JS removal loop keeps a subsequence of the lines. -/
theorem jsRemoveLoop_sublist (u : List Str) (lines : List Str) :
    List.Sublist (jsRemoveLoop u lines) lines := by
  induction lines with
  | nil => simp [jsRemoveLoop]
  | cons l rest ih =>
    simp only [jsRemoveLoop]
    split
    · exact List.Sublist.cons _ ih
    · exact List.Sublist.cons₂ _ ih

/-- The CSS removal loop keeps a subsequence of the lines, from any state. -/
theorem cssLoop_sublist (u : List Str) (lines : List Str) :
    ∀ (inR : Bool) (bc : Int) (sels : List Str),
      List.Sublist (cssLoop u inR bc sels lines) lines := by
  induction lines with
  | nil => intro inR bc sels; simp [cssLoop]
  | cons line rest ih =>
    intro inR bc sels
    simp only [cssLoop]
    split
    · split
      · exact List.Sublist.cons₂ _ (ih _ _ _)
      · split
        · exact List.Sublist.cons _ (ih _ _ _)
        · exact List.Sublist.cons _ (ih _ _ _)
    · split
      · split
        · split
          · exact List.Sublist.cons₂ _ (ih _ _ _)
          · exact List.Sublist.cons _ (ih _ _ _)
        · split
          · exact List.Sublist.cons _ (ih _ _ _)
          · exact List.Sublist.cons₂ _ (ih _ _ _)
      · exact List.Sublist.cons₂ _ (ih _ _ _)

/-- CSS removal never lengthens the text. -/
theorem remove_css_length_le (text : Str) (u : List Str) :
    (remove_unused_css_rules text u).length ≤ text.length := by
  by_cases hu : u = []
  · subst hu
    exact Nat.le_refl _
  · have hsub := cssLoop_sublist u (splitLines text) false 0 []
    have hmono := joinWith_length_mono '\n' hsub
    rw [show joinWith '\n' (splitLines text) = text from joinWith_splitOnChar '\n' text] at hmono
    simpa [remove_unused_css_rules, hu] using hmono

/-- JS removal never lengthens the text. -/
theorem remove_js_length_le (text : Str) (u : List Str) :
    (remove_unused_js_code text u).length ≤ text.length := by
  by_cases hu : u = []
  · subst hu
    exact Nat.le_refl _
  · have hsub := jsRemoveLoop_sublist u (splitLines text)
    have hmono := joinWith_length_mono '\n' hsub
    rw [show joinWith '\n' (splitLines text) = text from joinWith_splitOnChar '\n' text] at hmono
    simpa [remove_unused_js_code, hu] using hmono

/- ## Matcher decomposition lemmas -/

theorem startsWith_iff (p : Str) : ∀ s, startsWith p s = true ↔ ∃ r, s = p ++ r := by
  induction p with
  | nil =>
    intro s
    simp [startsWith]
  | cons a p ih =>
    intro s
    cases s with
    | nil => simp [startsWith]
    | cons c cs =>
      simp only [startsWith, Bool.and_eq_true, beq_iff_eq]
      constructor
      · rintro ⟨hac, hsw⟩
        obtain ⟨r, hr⟩ := (ih cs).mp hsw
        refine ⟨r, ?_⟩
        rw [hac, hr]
        rfl
      · rintro ⟨r, hr⟩
        simp only [List.cons_append] at hr
        injection hr with h1 h2
        exact ⟨h1.symm, (ih cs).mpr ⟨r, h2⟩⟩

theorem litThen_iff (kw : Str) (k : Str → Bool) (s : Str) :
    litThen kw k s = true ↔ ∃ r, s = kw ++ r ∧ k r = true := by
  simp only [litThen, Bool.and_eq_true]
  constructor
  · rintro ⟨hsw, hk⟩
    obtain ⟨r, hr⟩ := (startsWith_iff kw s).mp hsw
    subst hr
    rw [List.drop_left] at hk
    exact ⟨r, rfl, hk⟩
  · rintro ⟨r, hr, hk⟩
    subst hr
    exact ⟨(startsWith_iff kw _).mpr ⟨r, rfl⟩, by rw [List.drop_left]; exact hk⟩

theorem spacesStar_iff (k : Str → Bool) :
    ∀ s, spacesStar k s = true ↔ ∃ a b, s = a ++ b ∧ AllSpace a ∧ k b = true := by
  intro s
  induction s with
  | nil =>
    simp only [spacesStar]
    constructor
    · intro h
      exact ⟨[], [], rfl, fun c hc => absurd hc (List.not_mem_nil c), h⟩
    · rintro ⟨a, b, heq, _, hk⟩
      obtain ⟨ha, hb⟩ := List.append_eq_nil.mp heq.symm
      subst ha
      subst hb
      exact hk
  | cons c cs ih =>
    simp only [spacesStar, Bool.or_eq_true, Bool.and_eq_true]
    constructor
    · rintro (h | ⟨hsp, hrec⟩)
      · exact ⟨[], c :: cs, rfl, fun x hx => absurd hx (List.not_mem_nil x), h⟩
      · obtain ⟨a, b, heq, hsa, hk⟩ := ih.mp hrec
        refine ⟨c :: a, b, by rw [heq]; rfl, ?_, hk⟩
        intro x hx
        rcases List.mem_cons.mp hx with h | h
        · subst h; exact hsp
        · exact hsa x h
    · rintro ⟨a, b, heq, hsa, hk⟩
      cases a with
      | nil =>
        left
        rw [List.nil_append] at heq
        rw [← heq] at hk
        exact hk
      | cons a0 a' =>
        right
        simp only [List.cons_append] at heq
        injection heq with h1 h2
        subst h1
        exact ⟨hsa c (by simp), ih.mpr ⟨a', b, h2, fun x hx => hsa x (by simp [hx]), hk⟩⟩

theorem spacesPlus_iff (k : Str → Bool) (s : Str) :
    spacesPlus k s = true ↔ ∃ a b, s = a ++ b ∧ AllSpace a ∧ a ≠ [] ∧ k b = true := by
  cases s with
  | nil =>
    simp only [spacesPlus]
    constructor
    · intro h; exact absurd h (by simp)
    · rintro ⟨a, b, heq, _, hne, _⟩
      exact absurd (List.append_eq_nil.mp heq.symm).1 hne
  | cons c cs =>
    simp only [spacesPlus, Bool.and_eq_true]
    constructor
    · rintro ⟨hsp, hstar⟩
      obtain ⟨a, b, heq, hsa, hk⟩ := (spacesStar_iff k cs).mp hstar
      refine ⟨c :: a, b, by rw [heq]; rfl, ?_, by simp, hk⟩
      intro x hx
      rcases List.mem_cons.mp hx with h | h
      · subst h; exact hsp
      · exact hsa x h
    · rintro ⟨a, b, heq, hsa, hne, hk⟩
      cases a with
      | nil => exact absurd rfl hne
      | cons a0 a' =>
        simp only [List.cons_append] at heq
        injection heq with h1 h2
        subst h1
        exact ⟨hsa c (by simp),
          (spacesStar_iff k cs).mpr ⟨a', b, h2, fun x hx => hsa x (by simp [hx]), hk⟩⟩

theorem headIs_iff (c : Char) (s : Str) : headIs c s = true ↔ ∃ r, s = c :: r := by
  cases s with
  | nil => simp [headIs]
  | cons x r =>
    constructor
    · intro h
      have hx : x = c := by
        simpa [headIs] using h
      exact ⟨r, by rw [hx]⟩
    · rintro ⟨r2, hr⟩
      injection hr with h1 h2
      simp [headIs, h1]

theorem headIsEqOrSemi_iff (s : Str) :
    headIsEqOrSemi s = true ↔ ∃ c r, s = c :: r ∧ (c = '=' ∨ c = ';') := by
  cases s with
  | nil => simp [headIsEqOrSemi]
  | cons x r =>
    simp only [headIsEqOrSemi, Bool.or_eq_true, beq_iff_eq]
    constructor
    · intro h
      exact ⟨x, r, rfl, h⟩
    · rintro ⟨c, r2, hr, hc⟩
      injection hr with h1 _
      subst h1
      exact hc

theorem matchFnDeclLine_iff (name line : Str) :
    matchFnDeclLine name line = true ↔ FnDeclLineProp name line := by
  unfold matchFnDeclLine FnDeclLineProp
  rw [spacesStar_iff]
  constructor
  · rintro ⟨sp, b, heq, hsp, hk⟩
    rw [litThen_iff] at hk
    obtain ⟨r, hr, hk2⟩ := hk
    rw [spacesPlus_iff] at hk2
    obtain ⟨spp, u, hu, hspp, hne, hk3⟩ := hk2
    rw [litThen_iff] at hk3
    obtain ⟨v, hv, hk4⟩ := hk3
    rw [spacesStar_iff] at hk4
    obtain ⟨sp2, w, hw, hsp2, hk5⟩ := hk4
    rw [headIs_iff] at hk5
    obtain ⟨rest, hrest⟩ := hk5
    refine ⟨sp, spp, sp2, rest, ?_, hsp, hspp, hne, hsp2⟩
    rw [heq, hr, hu, hv, hw, hrest]
    simp [List.append_assoc]
  · rintro ⟨sp, spp, sp2, rest, heq, hsp, hspp, hne, hsp2⟩
    refine ⟨sp, kwFunction ++ (spp ++ (name ++ (sp2 ++ '(' :: rest))), ?_, hsp, ?_⟩
    · rw [heq]
      simp [List.append_assoc]
    · rw [litThen_iff]
      refine ⟨spp ++ (name ++ (sp2 ++ '(' :: rest)), rfl, ?_⟩
      rw [spacesPlus_iff]
      refine ⟨spp, name ++ (sp2 ++ '(' :: rest), rfl, hspp, hne, ?_⟩
      rw [litThen_iff]
      refine ⟨sp2 ++ '(' :: rest, rfl, ?_⟩
      rw [spacesStar_iff]
      refine ⟨sp2, '(' :: rest, rfl, hsp2, ?_⟩
      rw [headIs_iff]
      exact ⟨rest, rfl⟩

theorem matchVarDeclLine_iff (name line : Str) :
    matchVarDeclLine name line = true ↔ VarDeclLineProp name line := by
  unfold matchVarDeclLine VarDeclLineProp
  rw [spacesStar_iff]
  have step : ∀ kw b,
      litThen kw (spacesPlus (litThen name (spacesStar headIsEqOrSemi))) b = true ↔
      ∃ spp sp2 c rest, b = kw ++ spp ++ name ++ sp2 ++ c :: rest ∧
        AllSpace spp ∧ spp ≠ [] ∧ AllSpace sp2 ∧ (c = '=' ∨ c = ';') := by
    intro kw b
    constructor
    · intro hlit
      rw [litThen_iff] at hlit
      obtain ⟨r, hr, h2⟩ := hlit
      rw [spacesPlus_iff] at h2
      obtain ⟨spp, u, hu, hspp, hne, h3⟩ := h2
      rw [litThen_iff] at h3
      obtain ⟨v, hv, h4⟩ := h3
      rw [spacesStar_iff] at h4
      obtain ⟨sp2, w, hw, hsp2, h5⟩ := h4
      rw [headIsEqOrSemi_iff] at h5
      obtain ⟨c, rest, hcr, hc⟩ := h5
      refine ⟨spp, sp2, c, rest, ?_, hspp, hne, hsp2, hc⟩
      rw [hr, hu, hv, hw, hcr]
      simp [List.append_assoc]
    · rintro ⟨spp, sp2, c, rest, hb, hspp, hne, hsp2, hc⟩
      rw [litThen_iff]
      refine ⟨spp ++ (name ++ (sp2 ++ c :: rest)), by rw [hb]; simp [List.append_assoc], ?_⟩
      rw [spacesPlus_iff]
      refine ⟨spp, name ++ (sp2 ++ c :: rest), rfl, hspp, hne, ?_⟩
      rw [litThen_iff]
      refine ⟨sp2 ++ c :: rest, rfl, ?_⟩
      rw [spacesStar_iff]
      refine ⟨sp2, c :: rest, rfl, hsp2, ?_⟩
      rw [headIsEqOrSemi_iff]
      exact ⟨c, rest, rfl, hc⟩
  constructor
  · rintro ⟨sp, b, heq, hsp, hk⟩
    simp only [Bool.or_eq_true] at hk
    rcases hk with (hk | hk) | hk
    · obtain ⟨spp, sp2, c, rest, hb, hspp, hne, hsp2, hc⟩ := (step kwVar b).mp hk
      exact ⟨sp, kwVar, spp, sp2, c, rest, by rw [heq, hb]; simp [List.append_assoc],
        hsp, Or.inl rfl, hspp, hne, hsp2, hc⟩
    · obtain ⟨spp, sp2, c, rest, hb, hspp, hne, hsp2, hc⟩ := (step kwLet b).mp hk
      exact ⟨sp, kwLet, spp, sp2, c, rest, by rw [heq, hb]; simp [List.append_assoc],
        hsp, Or.inr (Or.inl rfl), hspp, hne, hsp2, hc⟩
    · obtain ⟨spp, sp2, c, rest, hb, hspp, hne, hsp2, hc⟩ := (step kwConst b).mp hk
      exact ⟨sp, kwConst, spp, sp2, c, rest, by rw [heq, hb]; simp [List.append_assoc],
        hsp, Or.inr (Or.inr rfl), hspp, hne, hsp2, hc⟩
  · rintro ⟨sp, kw, spp, sp2, c, rest, heq, hsp, hkw, hspp, hne, hsp2, hc⟩
    refine ⟨sp, kw ++ (spp ++ (name ++ (sp2 ++ c :: rest))),
      by rw [heq]; simp [List.append_assoc], hsp, ?_⟩
    have inner : litThen kw (spacesPlus (litThen name (spacesStar headIsEqOrSemi)))
        (kw ++ (spp ++ (name ++ (sp2 ++ c :: rest)))) = true := by
      rw [step]
      exact ⟨spp, sp2, c, rest, by simp [List.append_assoc], hspp, hne, hsp2, hc⟩
    simp only [Bool.or_eq_true]
    rcases hkw with h | h | h
    · subst h
      exact Or.inl (Or.inl inner)
    · subst h
      exact Or.inl (Or.inr inner)
    · subst h
      exact Or.inr inner

theorem jsShouldRemoveLoop_iff (unused : List Str) (line : Str) :
    jsShouldRemoveLoop unused line = true ↔
      ∃ name ∈ unused, matchFnDeclLine name line = true ∨
        matchVarDeclLine name line = true := by
  induction unused with
  | nil => simp [jsShouldRemoveLoop]
  | cons u rest ih =>
    simp only [jsShouldRemoveLoop]
    split
    · next h =>
      constructor
      · intro _
        exact ⟨u, by simp, Or.inl h⟩
      · intro _
        rfl
    · next h1 =>
      split
      · next h2 =>
        constructor
        · intro _
          exact ⟨u, by simp, Or.inr h2⟩
        · intro _
          rfl
      · next h2 =>
        rw [ih]
        constructor
        · rintro ⟨n, hn, hm⟩
          exact ⟨n, by simp [hn], hm⟩
        · rintro ⟨n, hn, hm⟩
          rcases List.mem_cons.mp hn with h | h
          · subst h
            rcases hm with hm | hm
            · exact absurd hm h1
            · exact absurd hm h2
          · exact ⟨n, h, hm⟩

theorem jsRemoveLoop_eq_filter (u : List Str) (lines : List Str) :
    jsRemoveLoop u lines = lines.filter (fun l => !(jsShouldRemoveLoop u l)) := by
  induction lines with
  | nil => rfl
  | cons l rest ih =>
    simp only [jsRemoveLoop, List.filter_cons]
    cases h : jsShouldRemoveLoop u l <;> simp [h, ih]

/- ## Claim theorems -/

/-- C6: for every text, `remove_unused_css_rules(text, ∅) = text` and
    `remove_unused_js_code(text, ∅) = text`: with an empty unused set both
    removers return the input unchanged. -/
theorem claim6_noop_on_empty_unused (text : Str) :
    remove_unused_css_rules text [] = text ∧ remove_unused_js_code text [] = text :=
  ⟨rfl, rfl⟩

/-- C9: a file whose read content is the empty string is skipped: no
    extraction or removal is performed, no ChangeRecord is created, and the
    content is left as it was (the file is not written back). -/
theorem claim9_empty_content_skipped (corpus : Str) :
    processCssFile corpus [] = ([], none) ∧ processJsFile corpus [] = ([], none) :=
  ⟨rfl, rfl⟩

/-- C8: every ChangeRecord built by `log_changes` has
    `bytes_saved = original_size - new_size`, and for a record logged by the
    pipeline for a file those two sizes are the lengths of the file's text
    before and after removal, so `bytes_saved` is exactly the length
    difference. -/
theorem claim8_bytes_saved_accounting (file_type : String) (items : List Str)
    (osz nsz : Nat) (corpus content : Str) (rc rj : ChangeRecord)
    (hc : (processCssFile corpus content).2 = some rc)
    (hj : (processJsFile corpus content).2 = some rj) :
    (log_changes file_type items osz nsz).bytes_saved = (osz : Int) - (nsz : Int) ∧
    rc.original_size = content.length ∧
    rc.new_size = (processCssFile corpus content).1.length ∧
    rc.bytes_saved = (rc.original_size : Int) - (rc.new_size : Int) ∧
    rj.original_size = content.length ∧
    rj.new_size = (processJsFile corpus content).1.length ∧
    rj.bytes_saved = (rj.original_size : Int) - (rj.new_size : Int) := by
  have h1 : content ≠ [] := by
    intro h
    rw [h] at hc
    simp [processCssFile] at hc
  have h2 : cssUnused corpus content ≠ [] := by
    intro h
    simp [processCssFile, h1, h] at hc
  have h3 : jsUnused corpus content ≠ [] := by
    intro h
    simp [processJsFile, h1, h] at hj
  have heqc : processCssFile corpus content =
      (remove_unused_css_rules content (cssUnused corpus content),
       some (log_changes "CSS" (cssUnused corpus content) content.length
         (remove_unused_css_rules content (cssUnused corpus content)).length)) := by
    simp [processCssFile, h1, h2]
  have heqj : processJsFile corpus content =
      (remove_unused_js_code content (jsUnused corpus content),
       some (log_changes "JavaScript" (jsUnused corpus content) content.length
         (remove_unused_js_code content (jsUnused corpus content)).length)) := by
    simp [processJsFile, h1, h3]
  rw [heqc] at hc
  rw [heqj] at hj
  simp only [Option.some.injEq] at hc hj
  subst hc
  subst hj
  refine ⟨rfl, rfl, ?_, rfl, rfl, ?_, rfl⟩
  · rw [heqc]
    rfl
  · rw [heqj]
    rfl

/-- C8 witness: a concrete file content for which both the CSS pass and the
    JS pass log a record, instantiating `claim8_bytes_saved_accounting`. -/
theorem claim8_witness :
    (log_changes "CSS" [] 5 3).bytes_saved = ((5 : Nat) : Int) - ((3 : Nat) : Int) ∧
    (log_changes "CSS" [".a".data] (".a \x7b \x7d\nvar deadv = 1;".data.length)
        ("var deadv = 1;".data.length)).original_size =
      (".a \x7b \x7d\nvar deadv = 1;".data).length ∧
    (log_changes "CSS" [".a".data] (".a \x7b \x7d\nvar deadv = 1;".data.length)
        ("var deadv = 1;".data.length)).new_size =
      (processCssFile [] (".a \x7b \x7d\nvar deadv = 1;".data)).1.length ∧
    (log_changes "CSS" [".a".data] (".a \x7b \x7d\nvar deadv = 1;".data.length)
        ("var deadv = 1;".data.length)).bytes_saved =
      (((log_changes "CSS" [".a".data] (".a \x7b \x7d\nvar deadv = 1;".data.length)
        ("var deadv = 1;".data.length)).original_size : Int) -
       ((log_changes "CSS" [".a".data] (".a \x7b \x7d\nvar deadv = 1;".data.length)
        ("var deadv = 1;".data.length)).new_size : Int)) ∧
    (log_changes "JavaScript" ["deadv".data] (".a \x7b \x7d\nvar deadv = 1;".data.length)
        (".a \x7b \x7d".data.length)).original_size =
      (".a \x7b \x7d\nvar deadv = 1;".data).length ∧
    (log_changes "JavaScript" ["deadv".data] (".a \x7b \x7d\nvar deadv = 1;".data.length)
        (".a \x7b \x7d".data.length)).new_size =
      (processJsFile [] (".a \x7b \x7d\nvar deadv = 1;".data)).1.length ∧
    (log_changes "JavaScript" ["deadv".data] (".a \x7b \x7d\nvar deadv = 1;".data.length)
        (".a \x7b \x7d".data.length)).bytes_saved =
      (((log_changes "JavaScript" ["deadv".data] (".a \x7b \x7d\nvar deadv = 1;".data.length)
        (".a \x7b \x7d".data.length)).original_size : Int) -
       ((log_changes "JavaScript" ["deadv".data] (".a \x7b \x7d\nvar deadv = 1;".data.length)
        (".a \x7b \x7d".data.length)).new_size : Int)) :=
  claim8_bytes_saved_accounting "CSS" [] 5 3 [] (".a \x7b \x7d\nvar deadv = 1;".data)
    (log_changes "CSS" [".a".data] (".a \x7b \x7d\nvar deadv = 1;".data.length)
      ("var deadv = 1;".data.length))
    (log_changes "JavaScript" ["deadv".data] (".a \x7b \x7d\nvar deadv = 1;".data.length)
      (".a \x7b \x7d".data.length))
    (by decide) (by decide)

/-- C1 counterexample: the multi-line rule of the claim itself,
    `.a {\n color:red;\n}` with `.a` unused, is NOT removed in its entirety:
    the removal keeps the dangling body line ` color:red;` (only the opener
    and the closing brace are dropped). -/
theorem claim1_counterexample :
    remove_unused_css_rules (".a \x7b\n color:red;\n\x7d".data) [".a".data] =
      (" color:red;".data) := by
  decide

/-- C3 counterexample: for the identifier `$f` (a valid JS identifier whose
    first character is not a regex word character), a corpus containing the
    bare declaration `function $f(` does NOT make `$f` referenced: the
    leading `\b` of both search patterns fails before `$`. -/
theorem claim3_counterexample :
    find_js_references ("function $f()".data) ["$f".data] = [] := by
  decide

/-- C4 counterexample: in the claim's concrete scenario the identifier
    `unused` is NOT absent from the referenced set: its own declaration line
    `function unused(){}` satisfies the call pattern `\bunused\s*\(`. -/
theorem claim4_counterexample :
    ("unused".data) ∈
      find_js_references ("function used()\x7b\x7d\nfunction unused()\x7b\x7d\nused();".data)
        (get_js_identifiers ("function used()\x7b\x7d\nfunction unused()\x7b\x7d\nused();".data)) := by
  decide

/-- C4 amended: in the concrete scenario both `used` and `unused` are
    referenced (each declaration satisfies the call pattern), the unused set
    is therefore empty, and the pipeline leaves the file unchanged with no
    record: no line is deleted. -/
theorem claim4_amended :
    find_js_references ("function used()\x7b\x7d\nfunction unused()\x7b\x7d\nused();".data)
        (get_js_identifiers ("function used()\x7b\x7d\nfunction unused()\x7b\x7d\nused();".data)) =
      get_js_identifiers ("function used()\x7b\x7d\nfunction unused()\x7b\x7d\nused();".data) ∧
    processJsFile (all_content [] [("function used()\x7b\x7d\nfunction unused()\x7b\x7d\nused();".data)])
        ("function used()\x7b\x7d\nfunction unused()\x7b\x7d\nused();".data) =
      (("function used()\x7b\x7d\nfunction unused()\x7b\x7d\nused();".data), none) := by
  constructor
  · decide
  · decide

/-- C7 counterexample: a one-JS-file project on which the second run of the
    pipeline deletes further lines.  The first run removes
    `var deadv = alive;` (the only non-declaration occurrence of `alive`),
    after which the second run finds `alive` unreferenced and deletes its
    declaration too. -/
theorem claim7_counterexample :
    (process_files [] [] [("var alive = 1;\nvar deadv = alive;".data)]).2.map Prod.fst =
      [("var alive = 1;".data)] ∧
    (process_files [] [] [("var alive = 1;".data)]).2.map Prod.fst = [([] : Str)] ∧
    ([] : Str) ≠ ("var alive = 1;".data) := by
  refine ⟨by decide, by decide, by decide⟩

/-- C10: both removers only delete whole lines: the output is the join of a
    subsequence of the input's newline-split lines, hence never longer than
    the input; consequently a logged ChangeRecord has
    `new_size ≤ original_size` and a non-negative `bytes_saved`. -/
theorem claim10_line_deletion_only (text : Str) (unused : List Str)
    (corpus content : Str) (r : ChangeRecord)
    (hr : (processCssFile corpus content).2 = some r ∨
          (processJsFile corpus content).2 = some r) :
    (∃ ls, List.Sublist ls (splitLines text) ∧
      remove_unused_css_rules text unused = joinLines ls) ∧
    (∃ ls, List.Sublist ls (splitLines text) ∧
      remove_unused_js_code text unused = joinLines ls) ∧
    (remove_unused_css_rules text unused).length ≤ text.length ∧
    (remove_unused_js_code text unused).length ≤ text.length ∧
    r.new_size ≤ r.original_size ∧ 0 ≤ r.bytes_saved := by
  refine ⟨?_, ?_, remove_css_length_le text unused, remove_js_length_le text unused, ?_⟩
  · by_cases hu : unused = []
    · subst hu
      exact ⟨splitLines text, List.Sublist.refl _, (joinWith_splitOnChar '\n' text).symm⟩
    · refine ⟨cssLoop unused false 0 [] (splitLines text), cssLoop_sublist _ _ _ _ _, ?_⟩
      simp [remove_unused_css_rules, hu, joinLines]
  · by_cases hu : unused = []
    · subst hu
      exact ⟨splitLines text, List.Sublist.refl _, (joinWith_splitOnChar '\n' text).symm⟩
    · refine ⟨jsRemoveLoop unused (splitLines text), jsRemoveLoop_sublist _ _, ?_⟩
      simp [remove_unused_js_code, hu, joinLines]
  · rcases hr with hc | hj
    · have h1 : content ≠ [] := by
        intro h
        rw [h] at hc
        simp [processCssFile] at hc
      have h2 : cssUnused corpus content ≠ [] := by
        intro h
        simp [processCssFile, h1, h] at hc
      have heqc : (processCssFile corpus content).2 =
          some (log_changes "CSS" (cssUnused corpus content) content.length
            (remove_unused_css_rules content (cssUnused corpus content)).length) := by
        simp [processCssFile, h1, h2]
      rw [heqc] at hc
      simp only [Option.some.injEq] at hc
      subst hc
      have hle := remove_css_length_le content (cssUnused corpus content)
      constructor
      · exact hle
      · simp [log_changes]
        omega
    · have h1 : content ≠ [] := by
        intro h
        rw [h] at hj
        simp [processJsFile] at hj
      have h2 : jsUnused corpus content ≠ [] := by
        intro h
        simp [processJsFile, h1, h] at hj
      have heqj : (processJsFile corpus content).2 =
          some (log_changes "JavaScript" (jsUnused corpus content) content.length
            (remove_unused_js_code content (jsUnused corpus content)).length) := by
        simp [processJsFile, h1, h2]
      rw [heqj] at hj
      simp only [Option.some.injEq] at hj
      subst hj
      have hle := remove_js_length_le content (jsUnused corpus content)
      constructor
      · exact hle
      · simp [log_changes]
        omega

/-- C10 witness: instantiation at a concrete CSS file whose only rule is
    removed. -/
theorem claim10_witness :
    (∃ ls, List.Sublist ls (splitLines ("p".data)) ∧
      remove_unused_css_rules ("p".data) [] = joinLines ls) ∧
    (∃ ls, List.Sublist ls (splitLines ("p".data)) ∧
      remove_unused_js_code ("p".data) [] = joinLines ls) ∧
    (remove_unused_css_rules ("p".data) []).length ≤ ("p".data).length ∧
    (remove_unused_js_code ("p".data) []).length ≤ ("p".data).length ∧
    (log_changes "CSS" [".qq".data] (".qq \x7b c:d \x7d".data.length) 0).new_size ≤
      (log_changes "CSS" [".qq".data] (".qq \x7b c:d \x7d".data.length) 0).original_size ∧
    0 ≤ (log_changes "CSS" [".qq".data] (".qq \x7b c:d \x7d".data.length) 0).bytes_saved :=
  claim10_line_deletion_only ("p".data) [] [] (".qq \x7b c:d \x7d".data)
    (log_changes "CSS" [".qq".data] (".qq \x7b c:d \x7d".data.length) 0)
    (Or.inl (by decide))

/-- C7 amended: full-pipeline idempotence fails in general (see the
    counterexample: a removed JS declaration line can carry the only
    reference to another identifier or selector, so a second run can delete
    more); what does hold is that a run that deletes nothing is a fixed
    point: if the first run leaves every CSS and JS file unchanged, the
    second run does too. -/
theorem claim7_amended (htmls csss jss : List Str)
    (h1 : (process_files htmls csss jss).1.map Prod.fst = csss)
    (h2 : (process_files htmls csss jss).2.map Prod.fst = jss) :
    (process_files htmls ((process_files htmls csss jss).1.map Prod.fst)
        ((process_files htmls csss jss).2.map Prod.fst)).1.map Prod.fst =
      (process_files htmls csss jss).1.map Prod.fst ∧
    (process_files htmls ((process_files htmls csss jss).1.map Prod.fst)
        ((process_files htmls csss jss).2.map Prod.fst)).2.map Prod.fst =
      (process_files htmls csss jss).2.map Prod.fst := by
  rw [h1, h2]
  exact ⟨h1, h2⟩

/-- C7 witness: a small project (one fully-commented CSS file, one JS file
    with no declarations) on which the first run deletes nothing. -/
theorem claim7_witness :
    (process_files [] ((process_files [] [("/* k */".data)] [("used();".data)]).1.map Prod.fst)
        ((process_files [] [("/* k */".data)] [("used();".data)]).2.map Prod.fst)).1.map Prod.fst =
      (process_files [] [("/* k */".data)] [("used();".data)]).1.map Prod.fst ∧
    (process_files [] ((process_files [] [("/* k */".data)] [("used();".data)]).1.map Prod.fst)
        ((process_files [] [("/* k */".data)] [("used();".data)]).2.map Prod.fst)).2.map Prod.fst =
      (process_files [] [("/* k */".data)] [("used();".data)]).2.map Prod.fst :=
  claim7_amended [] [("/* k */".data)] [("used();".data)] (by decide) (by decide)

/-- C5: with a non-empty unused set, `remove_unused_js_code` is exactly a
    per-line filter: a line is dropped iff, for some unused name, it matches
    `^\s*function\s+NAME\s*\(` or `^\s*(?:var|let|const)\s+NAME\s*[=;]`
    (stated declaratively by `FnDeclLineProp` / `VarDeclLineProp`); all other
    lines — in particular the body lines of a multi-line function whose
    declaration line was dropped — are kept verbatim. -/
theorem claim5_js_removal_is_line_filter (text : Str) (unused : List Str)
    (h : unused ≠ []) :
    remove_unused_js_code text unused =
      joinLines ((splitLines text).filter (fun l => !(jsShouldRemoveLoop unused l))) ∧
    ∀ line : Str, jsShouldRemoveLoop unused line = true ↔
      ∃ name ∈ unused, FnDeclLineProp name line ∨ VarDeclLineProp name line := by
  constructor
  · simp [remove_unused_js_code, h, jsRemoveLoop_eq_filter]
  · intro line
    simp only [jsShouldRemoveLoop_iff, matchFnDeclLine_iff, matchVarDeclLine_iff]

/-- C5 witness: a multi-line function whose declaration line alone is
    dropped. -/
theorem claim5_witness :
    remove_unused_js_code ("function deadf() \x7b\n x();\n\x7d".data) ["deadf".data] =
      joinLines ((splitLines ("function deadf() \x7b\n x();\n\x7d".data)).filter
        (fun l => !(jsShouldRemoveLoop ["deadf".data] l))) ∧
    ∀ line : Str, jsShouldRemoveLoop ["deadf".data] line = true ↔
      ∃ name ∈ [("deadf".data)], FnDeclLineProp name line ∨ VarDeclLineProp name line :=
  claim5_js_removal_is_line_filter ("function deadf() \x7b\n x();\n\x7d".data)
    ["deadf".data] (by decide)

theorem lastOr_cons (c : Char) (u : Str) (d : Option Char) :
    lastOr (c :: u) d = lastOr u (some c) := by
  induction u generalizing c d with
  | nil => simp [lastOr]
  | cons x xs ih =>
    have h1 : lastOr (c :: x :: xs) d = lastOr (x :: xs) d := by
      unfold lastOr
      rw [List.getLast?_cons_cons]
    rw [h1, ih x d, ih x (some c)]

/-- `re.search` over the whole corpus with previous-character tracking:
    some split of the corpus puts the pattern right after the prefix, the
    character before the match position being the prefix's last. -/
theorem searchPrev_iff (p : Option Char → Str → Bool) :
    ∀ (s : Str) (prev : Option Char),
      searchPrev p prev s = true ↔ ∃ u v, s = u ++ v ∧ p (lastOr u prev) v = true := by
  intro s
  induction s with
  | nil =>
    intro prev
    simp only [searchPrev]
    constructor
    · intro h
      exact ⟨[], [], rfl, by simpa [lastOr] using h⟩
    · rintro ⟨u, v, heq, hp⟩
      obtain ⟨hu, hv⟩ := List.append_eq_nil.mp heq.symm
      subst hu
      subst hv
      simpa [lastOr] using hp
  | cons c rest ih =>
    intro prev
    simp only [searchPrev, Bool.or_eq_true]
    constructor
    · rintro (h | h)
      · exact ⟨[], c :: rest, rfl, by simpa [lastOr] using h⟩
      · obtain ⟨u, v, heq, hp⟩ := (ih (some c)).mp h
        refine ⟨c :: u, v, by rw [heq]; rfl, ?_⟩
        rw [lastOr_cons]
        exact hp
    · rintro ⟨u, v, heq, hp⟩
      cases u with
      | nil =>
        left
        rw [List.nil_append] at heq
        rw [← heq] at hp
        simpa [lastOr] using hp
      | cons u0 u' =>
        right
        simp only [List.cons_append] at heq
        injection heq with h1 h2
        subst h1
        exact (ih (some c)).mpr ⟨u', v, h2, by rw [← lastOr_cons]; exact hp⟩

/-- C3 amended: for an identifier in the candidate set whose FIRST character
    is a regex word character (letter, digit or underscore — true of every
    identifier not starting with `$`), a corpus containing the bare
    declaration text `function NAME(` makes the identifier referenced, since
    that text itself satisfies the call pattern `\bNAME\s*\(`; such an
    identifier is therefore never in the unused set.  (For a `$`-leading
    identifier the leading `\b` fails there — see the counterexample.) -/
theorem claim3_amended (name pre post corpus : Str) (ids : List Str)
    (hmem : name ∈ ids)
    (hw : ∃ c rest, name = c :: rest ∧ isWordChar c = true)
    (hcorp : corpus = pre ++ ("function ".data) ++ name ++ '(' :: post) :
    name ∈ find_js_references corpus ids := by
  obtain ⟨c0, nrest, hname, hwc⟩ := hw
  have hsearch : searchPrev (jsCallAt name) none corpus = true := by
    rw [searchPrev_iff]
    refine ⟨(pre ++ ("function".data)) ++ [' '], name ++ '(' :: post, ?_, ?_⟩
    · rw [hcorp]
      have hfn : ("function ".data) = ("function".data) ++ [' '] := by decide
      rw [hfn]
      simp [List.append_assoc]
    · have hlast : lastOr ((pre ++ ("function".data)) ++ [' ']) none = some ' ' := by
        simp [lastOr, List.getLast?_concat]
      rw [hlast]
      simp only [jsCallAt, Bool.and_eq_true]
      refine ⟨⟨?_, ?_⟩, ?_⟩
      · rw [hname]
        simp only [List.cons_append, List.head?_cons]
        have hws : isWordChar ' ' = false := by decide
        simp [bndB, isWordO, hwc, hws]
      · exact (startsWith_iff name _).mpr ⟨'(' :: post, rfl⟩
      · rw [List.drop_left]
        have hnsp : isSpace '(' = false := by decide
        simp [List.dropWhile_cons, hnsp, headIs]
  have href : identReferenced corpus name = true := by
    simp [identReferenced, hsearch]
  simp [find_js_references, List.mem_filter, hmem, href]

/-- C3 witness: `foo` declared as `function foo()` is referenced. -/
theorem claim3_witness :
    ("foo".data) ∈ find_js_references ("function foo()".data) [("foo".data)] :=
  claim3_amended ("foo".data) [] (")".data) ("function foo()".data) [("foo".data)]
    (by decide) ⟨'f', ("oo".data), by decide, by decide⟩ (by decide)

/-- Unfolding `cssLoop` on a line while inside a rule. -/
theorem cssLoop_cons_inRule (u : List Str) (bc : Int) (sels : List Str)
    (line : Str) (rest : List Str) :
    cssLoop u true bc sels (line :: rest) =
      if bc + braceDelta line = 0 then
        if hasUsedSelector u sels then
          line :: cssLoop u false (bc + braceDelta line) sels rest
        else cssLoop u false (bc + braceDelta line) sels rest
      else if lineHasUnused u line then
        cssLoop u true (bc + braceDelta line) sels rest
      else line :: cssLoop u true (bc + braceDelta line) sels rest := by
  simp [cssLoop]

/-- Unfolding `cssLoop` on a braceless line while outside a rule. -/
theorem cssLoop_cons_noBrace (u : List Str) (bc : Int) (sels : List Str)
    (line : Str) (rest : List Str) (h : hasOpenBrace line = false) :
    cssLoop u false bc sels (line :: rest) = line :: cssLoop u false bc sels rest := by
  simp [cssLoop, h]

/-- Unfolding `cssLoop` on a rule-opening line. -/
theorem cssLoop_cons_opener (u : List Str) (bc : Int) (sels : List Str)
    (line : Str) (rest : List Str) (h : hasOpenBrace line = true) :
    cssLoop u false bc sels (line :: rest) =
      if hasUsedSelector u (openerSelectors line) then
        line :: cssLoop u true (braceDelta line) (openerSelectors line) rest
      else if braceDelta line = 0 then
        cssLoop u false (braceDelta line) (openerSelectors line) rest
      else cssLoop u true (braceDelta line) (openerSelectors line) rest := by
  simp [cssLoop, h]

/-- Outside a rule, the cached brace count and selector list are dead state:
    `cssLoop` ignores them. -/
theorem cssLoop_state_indep (u : List Str) :
    ∀ (lines : List Str) (bc1 bc2 : Int) (s1 s2 : List Str),
      cssLoop u false bc1 s1 lines = cssLoop u false bc2 s2 lines := by
  intro lines
  induction lines with
  | nil => intro bc1 bc2 s1 s2; rfl
  | cons line rest ih =>
    intro bc1 bc2 s1 s2
    cases h : hasOpenBrace line
    · rw [cssLoop_cons_noBrace u bc1 s1 line rest h, cssLoop_cons_noBrace u bc2 s2 line rest h,
        ih bc1 bc2 s1 s2]
    · rw [cssLoop_cons_opener u bc1 s1 line rest h, cssLoop_cons_opener u bc2 s2 line rest h]

/-- Inside a rule at non-zero depth, brace-balanced lines are filtered by
    the textual contains-an-unused-name test. -/
theorem cssLoop_body (u : List Str) :
    ∀ (body : List Str), (∀ l ∈ body, braceDelta l = 0) →
      ∀ (sels : List Str) (d : Int), d ≠ 0 → ∀ (tail : List Str),
      cssLoop u true d sels (body ++ tail) =
        body.filter (fun l => !(lineHasUnused u l)) ++ cssLoop u true d sels tail := by
  intro body
  induction body with
  | nil => intro _ sels d _ tail; rfl
  | cons l body ih =>
    intro hb sels d hd tail
    have hdl : braceDelta l = 0 := hb l (by simp)
    have hrec := ih (fun x hx => hb x (by simp [hx])) sels d hd tail
    rw [List.cons_append, cssLoop_cons_inRule, hdl]
    simp only [add_zero, if_neg hd]
    cases h : lineHasUnused u l
    · rw [List.filter_cons_of_pos (by simp [h]), hrec]
      simp
    · rw [List.filter_cons_of_neg (by simp [h]), hrec]
      simp

/-- C1 amended: take a stylesheet whose lines are a rule opener (one net
    opening brace), brace-balanced body lines, and a closing line, followed
    by anything; with a non-empty unused set. If every selector of the
    opener is covered by an unused name, the opener and the closing line are
    removed but each body line survives unless it textually contains an
    unused name (so ` color:red;` is left dangling — the rule is NOT removed
    in its entirety).  If some selector is not covered, the opener and the
    closing line are kept, and the body lines are filtered by the same
    textual test (so the rule is preserved verbatim only when no body line
    contains an unused name). -/
theorem claim1_amended (unused : List Str) (text : Str) (opener closer : Str)
    (body rest : List Str)
    (hu : unused ≠ [])
    (hsplit : splitLines text = opener :: (body ++ closer :: rest))
    (hob : hasOpenBrace opener = true)
    (hod : braceDelta opener = 1)
    (hbody : ∀ l ∈ body, braceDelta l = 0)
    (hcd : braceDelta closer = -1) :
    (hasUsedSelector unused (openerSelectors opener) = false →
      remove_unused_css_rules text unused =
        joinLines (body.filter (fun l => !(lineHasUnused unused l)) ++
          cssLoop unused false 0 [] rest)) ∧
    (hasUsedSelector unused (openerSelectors opener) = true →
      remove_unused_css_rules text unused =
        joinLines (opener :: (body.filter (fun l => !(lineHasUnused unused l)) ++
          closer :: cssLoop unused false 0 [] rest))) := by
  have hstart : remove_unused_css_rules text unused =
      joinLines (cssLoop unused false 0 [] (opener :: (body ++ closer :: rest))) := by
    simp [remove_unused_css_rules, hu, hsplit]
  have hcloser : ∀ sels, cssLoop unused true 1 sels (closer :: rest) =
      (if hasUsedSelector unused sels then
        closer :: cssLoop unused false 0 [] rest
      else cssLoop unused false 0 [] rest) := by
    intro sels
    rw [cssLoop_cons_inRule, hcd]
    have h0 : (1 : Int) + (-1) = 0 := by norm_num
    rw [h0, if_pos (show (0 : Int) = 0 from rfl),
      cssLoop_state_indep unused rest 0 0 sels []]
  constructor
  · intro hcov
    rw [hstart, cssLoop_cons_opener unused 0 [] opener _ hob, if_neg (by simp [hcov]), hod,
      if_neg (by norm_num), cssLoop_body unused body hbody _ 1 (by norm_num) (closer :: rest),
      hcloser, if_neg (by simp [hcov])]
  · intro hcov
    rw [hstart, cssLoop_cons_opener unused 0 [] opener _ hob, if_pos hcov, hod,
      cssLoop_body unused body hbody _ 1 (by norm_num) (closer :: rest),
      hcloser, if_pos hcov]

/-- C1 witness: the claim's own rule `.a {\n color:red;\n}` with `.a`
    unused, instantiating the covered case: the body line survives. -/
theorem claim1_witness :
    (hasUsedSelector [".a".data] (openerSelectors (".a \x7b".data)) = false →
      remove_unused_css_rules (".a \x7b\n color:red;\n\x7d".data) [".a".data] =
        joinLines (([" color:red;".data]).filter
          (fun l => !(lineHasUnused [".a".data] l)) ++
          cssLoop [".a".data] false 0 [] [])) ∧
    (hasUsedSelector [".a".data] (openerSelectors (".a \x7b".data)) = true →
      remove_unused_css_rules (".a \x7b\n color:red;\n\x7d".data) [".a".data] =
        joinLines ((".a \x7b".data) :: (([" color:red;".data]).filter
          (fun l => !(lineHasUnused [".a".data] l)) ++
          ("\x7d".data) :: cssLoop [".a".data] false 0 [] []))) :=
  claim1_amended [".a".data] (".a \x7b\n color:red;\n\x7d".data) (".a \x7b".data)
    ("\x7d".data) [" color:red;".data] []
    (by decide) (by decide) (by decide) (by decide)
    (by intro l hl; simp at hl; subst hl; decide) (by decide)

theorem searchAt_iff (p : Str → Bool) :
    ∀ s, searchAt p s = true ↔ ∃ u v, s = u ++ v ∧ p v = true := by
  intro s
  induction s with
  | nil =>
    simp only [searchAt]
    constructor
    · intro h
      exact ⟨[], [], rfl, h⟩
    · rintro ⟨u, v, heq, hp⟩
      obtain ⟨hu, hv⟩ := List.append_eq_nil.mp heq.symm
      subst hu
      subst hv
      exact hp
  | cons c rest ih =>
    simp only [searchAt, Bool.or_eq_true]
    constructor
    · rintro (h | h)
      · exact ⟨[], c :: rest, rfl, h⟩
      · obtain ⟨u, v, heq, hp⟩ := ih.mp h
        exact ⟨c :: u, v, by rw [heq]; rfl, hp⟩
    · rintro ⟨u, v, heq, hp⟩
      cases u with
      | nil =>
        left
        rw [List.nil_append] at heq
        rw [← heq] at hp
        exact hp
      | cons u0 u' =>
        right
        simp only [List.cons_append] at heq
        injection heq with h1 h2
        exact ih.mpr ⟨u', v, h2, hp⟩

theorem ciStartsWith_iff (p : Str) : ∀ s, ciStartsWith p s = true ↔
    ∃ t r, s = t ++ r ∧ CiEqList p t := by
  induction p with
  | nil =>
    intro s
    simp only [ciStartsWith]
    constructor
    · intro _
      exact ⟨[], s, rfl, List.Forall₂.nil⟩
    · intro _
      trivial
  | cons a p ih =>
    intro s
    cases s with
    | nil =>
      simp only [ciStartsWith]
      constructor
      · intro h
        exact absurd h (by simp)
      · rintro ⟨t, r, heq, hf⟩
        cases hf with
        | cons hab htail => simp at heq
    | cons c cs =>
      simp only [ciStartsWith, Bool.and_eq_true]
      constructor
      · rintro ⟨hac, hsw⟩
        obtain ⟨t, r, heq, hf⟩ := (ih cs).mp hsw
        exact ⟨c :: t, r, by rw [heq]; rfl, List.Forall₂.cons hac hf⟩
      · rintro ⟨t, r, heq, hf⟩
        cases hf with
        | cons hab htail =>
          rename_i b t2
          simp only [List.cons_append] at heq
          injection heq with h1 h2
          subst h1
          exact ⟨hab, (ih cs).mpr ⟨t2, r, h2, htail⟩⟩

theorem ciKwThen_iff (kw : Str) (k : Str → Bool) (s : Str) :
    ciKwThen kw k s = true ↔ ∃ t r, s = t ++ r ∧ CiEqList kw t ∧ k r = true := by
  simp only [ciKwThen, Bool.and_eq_true]
  constructor
  · rintro ⟨hsw, hk⟩
    obtain ⟨t, r, heq, hci⟩ := (ciStartsWith_iff kw s).mp hsw
    subst heq
    rw [List.Forall₂.length_eq hci, List.drop_left] at hk
    exact ⟨t, r, rfl, hci, hk⟩
  · rintro ⟨t, r, heq, hci, hk⟩
    subst heq
    refine ⟨(ciStartsWith_iff kw _).mpr ⟨t, r, rfl, hci⟩, ?_⟩
    rw [List.Forall₂.length_eq hci, List.drop_left]
    exact hk

theorem takeWhile_sat (p : Char → Bool) : ∀ (l : Str), ∀ c ∈ l.takeWhile p, p c = true := by
  intro l
  induction l with
  | nil => intro c hc; simp [List.takeWhile] at hc
  | cons x r ih =>
    intro c hc
    rw [List.takeWhile_cons] at hc
    by_cases hx : p x = true
    · rw [if_pos hx] at hc
      rcases List.mem_cons.mp hc with h | h
      · subst h
        exact hx
      · exact ih c h
    · rw [if_neg hx] at hc
      exact absurd hc (List.not_mem_nil c)

theorem dropWhile_append_sat (p : Char → Bool) : ∀ (a b : Str),
    (∀ c ∈ a, p c = true) → (∀ c r, b = c :: r → p c = false) →
    (a ++ b).dropWhile p = b := by
  intro a
  induction a with
  | nil =>
    intro b _ hb
    cases b with
    | nil => rfl
    | cons c r =>
      rw [List.nil_append, List.dropWhile_cons, if_neg (by simp [hb c r rfl])]
  | cons x a' ih =>
    intro b ha hb
    rw [List.cons_append, List.dropWhile_cons, if_pos (ha x (by simp))]
    exact ih b (fun c hc => ha c (by simp [hc])) hb

theorem dropSpaces_eqChar_iff (c : Char) (hc : isSpace c = false) (k : Str → Bool) (s : Str) :
    dropSpacesThen (eqCharThen c k) s = true ↔
      ∃ sp r, s = sp ++ c :: r ∧ AllSpace sp ∧ k r = true := by
  simp only [dropSpacesThen]
  constructor
  · intro h
    cases hd : s.dropWhile isSpace with
    | nil => rw [hd] at h; exact absurd h (by simp [eqCharThen])
    | cons x rest =>
      rw [hd] at h
      simp only [eqCharThen, Bool.and_eq_true, beq_iff_eq] at h
      obtain ⟨hx, hk⟩ := h
      subst hx
      refine ⟨s.takeWhile isSpace, rest, ?_, takeWhile_sat isSpace s, hk⟩
      rw [← hd, List.takeWhile_append_dropWhile]
  · rintro ⟨sp, r, heq, hsp, hk⟩
    subst heq
    rw [dropWhile_append_sat isSpace sp (c :: r) hsp
      (fun z zr hz => by injection hz with h1 _; rw [← h1]; exact hc)]
    simp [eqCharThen, hk]

theorem quote_not_space {q : Char} (hq : isQuote q = true) : isSpace q = false := by
  simp only [isQuote, Bool.or_eq_true, beq_iff_eq] at hq
  rcases hq with h | h <;> subst h <;> decide

theorem dropSpaces_quote_iff (k : Char → Str → Bool) (s : Str) :
    dropSpacesThen (quoteThen k) s = true ↔
      ∃ sp q r, s = sp ++ q :: r ∧ AllSpace sp ∧ isQuote q = true ∧ k q r = true := by
  simp only [dropSpacesThen]
  constructor
  · intro h
    cases hd : s.dropWhile isSpace with
    | nil => rw [hd] at h; exact absurd h (by simp [quoteThen])
    | cons x rest =>
      rw [hd] at h
      simp only [quoteThen, Bool.and_eq_true] at h
      obtain ⟨hx, hk⟩ := h
      refine ⟨s.takeWhile isSpace, x, rest, ?_, takeWhile_sat isSpace s, hx, hk⟩
      rw [← hd, List.takeWhile_append_dropWhile]
  · rintro ⟨sp, q, r, heq, hsp, hq, hk⟩
    subst heq
    rw [dropWhile_append_sat isSpace sp (q :: r) hsp
      (fun z zr hz => by injection hz with h1 _; rw [← h1]; exact quote_not_space hq)]
    simp [quoteThen, hq, hk]

theorem hasQuoteClose_iff : ∀ (l : Str), hasQuoteClose l = true ↔
    ∃ a c b, l = a ++ c :: b ∧ NoQuote a ∧ isQuote c = true := by
  intro l
  induction l with
  | nil =>
    constructor
    · intro h
      exact absurd h (by simp [hasQuoteClose])
    · rintro ⟨a, c, b, heq, _, _⟩
      exact absurd heq.symm (by simp)
  | cons x r ih =>
    simp only [hasQuoteClose, Bool.or_eq_true]
    constructor
    · rintro (h | h)
      · exact ⟨[], x, r, rfl, fun z hz => absurd hz (List.not_mem_nil z), h⟩
      · cases hx : isQuote x
        · obtain ⟨a, c, b, heq, hnq, hq⟩ := ih.mp h
          refine ⟨x :: a, c, b, by rw [heq]; rfl, ?_, hq⟩
          intro z hz
          rcases List.mem_cons.mp hz with h2 | h2
          · subst h2
            exact hx
          · exact hnq z h2
        · exact ⟨[], x, r, rfl, fun z hz => absurd hz (List.not_mem_nil z), hx⟩
    · rintro ⟨a, c, b, heq, hnq, hq⟩
      cases a with
      | nil =>
        left
        rw [List.nil_append] at heq
        injection heq with h1 _
        rw [h1]
        exact hq
      | cons a0 a' =>
        right
        simp only [List.cons_append] at heq
        injection heq with h1 h2
        exact ih.mpr ⟨a', c, b, h2, fun z hz => hnq z (by simp [hz]), hq⟩

theorem quotedExact_iff (name r : Str) :
    quotedExact name r = true ↔
      ∃ xm q2 post, r = xm ++ q2 :: post ∧ CiEqList name xm ∧ isQuote q2 = true := by
  simp only [quotedExact, Bool.and_eq_true]
  constructor
  · rintro ⟨hsw, hq⟩
    obtain ⟨xm, rr, heq, hci⟩ := (ciStartsWith_iff name r).mp hsw
    rw [heq, List.Forall₂.length_eq hci, List.drop_left] at hq
    cases rr with
    | nil => exact absurd hq (by simp [headIsQuote])
    | cons q2 post =>
      exact ⟨xm, q2, post, heq, hci, by simpa [headIsQuote] using hq⟩
  · rintro ⟨xm, q2, post, heq, hci, hq⟩
    subst heq
    refine ⟨(ciStartsWith_iff name _).mpr ⟨xm, q2 :: post, rfl, hci⟩, ?_⟩
    rw [List.Forall₂.length_eq hci, List.drop_left]
    simpa [headIsQuote] using hq

theorem nameTail_iff (x : Str) (prev : Char) (s : Str) :
    nameTail x prev s = true ↔
      ∃ xm rest2, s = xm ++ rest2 ∧ CiEqList x xm ∧
        bndB (some prev) s.head? = true ∧
        bndB (lastOr xm (some prev)) rest2.head? = true ∧
        hasQuoteClose rest2 = true := by
  simp only [nameTail, Bool.and_eq_true]
  constructor
  · rintro ⟨⟨⟨hb1, hsw⟩, hb2⟩, hqc⟩
    obtain ⟨xm, r, heq, hci⟩ := (ciStartsWith_iff x s).mp hsw
    have htake : s.take x.length = xm := by
      rw [heq, List.Forall₂.length_eq hci, List.take_left]
    have hdrop : s.drop x.length = r := by
      rw [heq, List.Forall₂.length_eq hci, List.drop_left]
    rw [htake, hdrop] at hb2
    rw [hdrop] at hqc
    exact ⟨xm, r, heq, hci, hb1, hb2, hqc⟩
  · rintro ⟨xm, rest2, heq, hci, hb1, hb2, hqc⟩
    have htake : s.take x.length = xm := by
      rw [heq, List.Forall₂.length_eq hci, List.take_left]
    have hdrop : s.drop x.length = rest2 := by
      rw [heq, List.Forall₂.length_eq hci, List.drop_left]
    refine ⟨⟨⟨hb1, ?_⟩, ?_⟩, ?_⟩
    · rw [heq]
      exact (ciStartsWith_iff x _).mpr ⟨xm, rest2, rfl, hci⟩
    · rw [htake, hdrop]
      exact hb2
    · rw [hdrop]
      exact hqc

theorem classInner_iff (x : Str) : ∀ (s : Str) (prev : Char),
    classInner x prev s = true ↔
      ∃ inner rest, s = inner ++ rest ∧ NoQuote inner ∧
        nameTail x (inner.getLastD prev) rest = true := by
  intro s
  induction s with
  | nil =>
    intro prev
    simp only [classInner]
    constructor
    · intro h
      exact ⟨[], [], rfl, fun z hz => absurd hz (List.not_mem_nil z), by simpa using h⟩
    · rintro ⟨inner, rest, heq, _, hnt⟩
      obtain ⟨hi, hr⟩ := List.append_eq_nil.mp heq.symm
      subst hi
      subst hr
      simpa using hnt
  | cons c cs ih =>
    intro prev
    simp only [classInner, Bool.or_eq_true, Bool.and_eq_true]
    constructor
    · rintro (h | ⟨hnq, hrec⟩)
      · exact ⟨[], c :: cs, rfl, fun z hz => absurd hz (List.not_mem_nil z), by simpa using h⟩
      · obtain ⟨inner, rest, heq, hni, hnt⟩ := (ih c).mp hrec
        refine ⟨c :: inner, rest, by rw [heq]; rfl, ?_, ?_⟩
        · intro z hz
          rcases List.mem_cons.mp hz with h2 | h2
          · subst h2
            simpa using hnq
          · exact hni z h2
        · rw [List.getLastD_cons]
          exact hnt
    · rintro ⟨inner, rest, heq, hni, hnt⟩
      cases inner with
      | nil =>
        left
        rw [List.nil_append] at heq
        subst heq
        simpa using hnt
      | cons i0 i' =>
        right
        simp only [List.cons_append] at heq
        injection heq with h1 h2
        subst h1
        refine ⟨by simp [hni c (by simp)], ?_⟩
        exact (ih c).mpr ⟨i', rest, h2, fun z hz => hni z (by simp [hz]),
          by rw [← List.getLastD_cons]; exact hnt⟩

theorem attrPatAt_iff (kw x s : Str) :
    attrPatAt kw x s = true ↔ ClassAttrAt kw x s := by
  unfold attrPatAt ClassAttrAt
  rw [ciKwThen_iff]
  constructor
  · rintro ⟨kwt, r, heq, hci, hk⟩
    rw [dropSpaces_eqChar_iff '=' (by decide)] at hk
    obtain ⟨sp1, r2, hr2, hsp1, hk2⟩ := hk
    rw [dropSpaces_quote_iff] at hk2
    obtain ⟨sp2, q, r3, hr3, hsp2, hq, hk3⟩ := hk2
    rw [classInner_iff] at hk3
    obtain ⟨inner1, rest, hrest, hnq1, hnt⟩ := hk3
    rw [nameTail_iff] at hnt
    obtain ⟨xm, rest2, hrest2, hcix, hb1, hb2, hqc⟩ := hnt
    rw [hasQuoteClose_iff] at hqc
    obtain ⟨inner2, q2, post, hpost, hnq2, hq2⟩ := hqc
    subst hpost
    subst hrest2
    refine ⟨kwt, sp1, sp2, inner1, xm, inner2, post, q, q2, ?_, hci, hsp1, hsp2, hq,
      hnq1, hcix, hb1, hb2, hnq2, hq2⟩
    rw [heq, hr2, hr3, hrest]
  · rintro ⟨kwt, sp1, sp2, inner1, xm, inner2, post, q, q2, heq, hci, hsp1, hsp2, hq,
      hnq1, hcix, hb1, hb2, hnq2, hq2⟩
    refine ⟨kwt, sp1 ++ '=' :: (sp2 ++ q :: (inner1 ++ (xm ++ (inner2 ++ q2 :: post)))),
      by rw [heq], hci, ?_⟩
    rw [dropSpaces_eqChar_iff '=' (by decide)]
    refine ⟨sp1, _, rfl, hsp1, ?_⟩
    rw [dropSpaces_quote_iff]
    refine ⟨sp2, q, _, rfl, hsp2, hq, ?_⟩
    rw [classInner_iff]
    refine ⟨inner1, xm ++ (inner2 ++ q2 :: post), rfl, hnq1, ?_⟩
    rw [nameTail_iff]
    refine ⟨xm, inner2 ++ q2 :: post, rfl, hcix, hb1, hb2, ?_⟩
    rw [hasQuoteClose_iff]
    exact ⟨inner2, q2, post, rfl, hnq2, hq2⟩

theorem quotedNameAt_iff (name t : Str) :
    quotedNameAt name t = true ↔
      ∃ (sp1 sp2 xm post : Str) (q q2 : Char),
        t = sp1 ++ '(' :: (sp2 ++ q :: (xm ++ q2 :: post)) ∧
        AllSpace sp1 ∧ AllSpace sp2 ∧ isQuote q = true ∧
        CiEqList name xm ∧ isQuote q2 = true := by
  unfold quotedNameAt
  rw [dropSpaces_eqChar_iff '(' (by decide)]
  constructor
  · rintro ⟨sp1, r, hr, hsp1, hk⟩
    rw [dropSpaces_quote_iff] at hk
    obtain ⟨sp2, q, r2, hr2, hsp2, hq, hk2⟩ := hk
    rw [quotedExact_iff] at hk2
    obtain ⟨xm, q2, post, hpost, hci, hq2⟩ := hk2
    subst hpost
    subst hr2
    exact ⟨sp1, sp2, xm, post, q, q2, by rw [hr], hsp1, hsp2, hq, hci, hq2⟩
  · rintro ⟨sp1, sp2, xm, post, q, q2, heq, hsp1, hsp2, hq, hci, hq2⟩
    refine ⟨sp1, _, heq, hsp1, ?_⟩
    rw [dropSpaces_quote_iff]
    refine ⟨sp2, q, _, rfl, hsp2, hq, ?_⟩
    rw [quotedExact_iff]
    exact ⟨xm, q2, post, rfl, hci, hq2⟩

theorem classListAt_iff (x s : Str) :
    classListAt x s = true ↔ ClassListCallAt x s := by
  unfold classListAt ClassListCallAt
  rw [ciKwThen_iff]
  have step : ∀ (mkw t : Str), ciKwThen mkw (quotedNameAt x) t = true ↔
      ∃ (mt sp1 sp2 xm post : Str) (q q2 : Char),
        t = mt ++ (sp1 ++ '(' :: (sp2 ++ q :: (xm ++ q2 :: post))) ∧
        CiEqList mkw mt ∧ AllSpace sp1 ∧ AllSpace sp2 ∧ isQuote q = true ∧
        CiEqList x xm ∧ isQuote q2 = true := by
    intro mkw t
    rw [ciKwThen_iff]
    constructor
    · rintro ⟨mt, r, hr, hcim, hk⟩
      rw [quotedNameAt_iff] at hk
      obtain ⟨sp1, sp2, xm, post, q, q2, hq2eq, hsp1, hsp2, hq, hci, hq2⟩ := hk
      subst hq2eq
      exact ⟨mt, sp1, sp2, xm, post, q, q2, hr, hcim, hsp1, hsp2, hq, hci, hq2⟩
    · rintro ⟨mt, sp1, sp2, xm, post, q, q2, heq, hcim, hsp1, hsp2, hq, hci, hq2⟩
      refine ⟨mt, _, heq, hcim, ?_⟩
      rw [quotedNameAt_iff]
      exact ⟨sp1, sp2, xm, post, q, q2, rfl, hsp1, hsp2, hq, hci, hq2⟩
  constructor
  · rintro ⟨kwt, t, heq, hcikw, hk⟩
    simp only [Bool.or_eq_true] at hk
    rcases hk with ((hk | hk) | hk) | hk
    · obtain ⟨mt, sp1, sp2, xm, post, q, q2, ht, hcim, hsp1, hsp2, hq, hci, hq2⟩ :=
        (step ("add".data) t).mp hk
      exact ⟨"add".data, kwt, mt, sp1, sp2, xm, post, q, q2, by rw [heq, ht], hcikw,
        Or.inl rfl, hcim, hsp1, hsp2, hq, hci, hq2⟩
    · obtain ⟨mt, sp1, sp2, xm, post, q, q2, ht, hcim, hsp1, hsp2, hq, hci, hq2⟩ :=
        (step ("remove".data) t).mp hk
      exact ⟨"remove".data, kwt, mt, sp1, sp2, xm, post, q, q2, by rw [heq, ht], hcikw,
        Or.inr (Or.inl rfl), hcim, hsp1, hsp2, hq, hci, hq2⟩
    · obtain ⟨mt, sp1, sp2, xm, post, q, q2, ht, hcim, hsp1, hsp2, hq, hci, hq2⟩ :=
        (step ("toggle".data) t).mp hk
      exact ⟨"toggle".data, kwt, mt, sp1, sp2, xm, post, q, q2, by rw [heq, ht], hcikw,
        Or.inr (Or.inr (Or.inl rfl)), hcim, hsp1, hsp2, hq, hci, hq2⟩
    · obtain ⟨mt, sp1, sp2, xm, post, q, q2, ht, hcim, hsp1, hsp2, hq, hci, hq2⟩ :=
        (step ("contains".data) t).mp hk
      exact ⟨"contains".data, kwt, mt, sp1, sp2, xm, post, q, q2, by rw [heq, ht], hcikw,
        Or.inr (Or.inr (Or.inr rfl)), hcim, hsp1, hsp2, hq, hci, hq2⟩
  · rintro ⟨m, kwt, mt, sp1, sp2, xm, post, q, q2, heq, hcikw, hm, hcim, hsp1, hsp2,
      hq, hci, hq2⟩
    refine ⟨kwt, mt ++ (sp1 ++ '(' :: (sp2 ++ q :: (xm ++ q2 :: post))), by rw [heq],
      hcikw, ?_⟩
    simp only [Bool.or_eq_true]
    have hinner : ∀ mkw : Str, CiEqList mkw mt →
        ciKwThen mkw (quotedNameAt x) (mt ++ (sp1 ++ '(' :: (sp2 ++ q :: (xm ++ q2 :: post)))) = true := by
      intro mkw hcm
      rw [step]
      exact ⟨mt, sp1, sp2, xm, post, q, q2, rfl, hcm, hsp1, hsp2, hq, hci, hq2⟩
    rcases hm with h | h | h | h
    · exact Or.inl (Or.inl (Or.inl (hinner ("add".data) (h ▸ hcim))))
    · exact Or.inl (Or.inl (Or.inr (hinner ("remove".data) (h ▸ hcim))))
    · exact Or.inl (Or.inr (hinner ("toggle".data) (h ▸ hcim)))
    · exact Or.inr (hinner ("contains".data) (h ▸ hcim))

theorem classRef_iff (content cname : Str) :
    classRef content cname = true ↔
      (searchAt (attrPatAt ("class".data) cname) content = true ∨
       searchAt (attrPatAt ("className".data) cname) content = true ∨
       searchAt (classListAt cname) content = true) := by
  unfold classRef
  split
  · next h => simp [h]
  · next h1 =>
    split
    · next h => simp [h]
    · next h2 =>
      split
      · next h => simp [h]
      · next h3 =>
        simp only [Bool.not_eq_true] at h1 h2 h3
        simp [h1, h2, h3]

/-- C2: a class selector `.x` is put in the referenced set by
    `find_references_in_content` iff it is among the candidates and the
    corpus matches (case-insensitively, with `x` word-bounded) at least one
    of the three patterns: a `class` attribute containing `x`, a `className`
    attribute containing `x`, or a `classList.add/remove/toggle/contains`
    call with `"x"` — each stated as an explicit decomposition of the
    corpus.  The loop breaks at the first matching pattern, so membership is
    exactly this disjunction. -/
theorem claim2_class_reference_iff (corpus : Str) (selectors : List Str) (x : Str) :
    ('.' :: x) ∈ find_references_in_content corpus selectors ↔
      ('.' :: x) ∈ selectors ∧
        (MatchesClassAttr ("class".data) x corpus ∨
         MatchesClassAttr ("className".data) x corpus ∨
         MatchesClassListCall x corpus) := by
  have hsearch1 : ∀ kw : Str,
      searchAt (attrPatAt kw x) corpus = true ↔ MatchesClassAttr kw x corpus := by
    intro kw
    rw [searchAt_iff]
    unfold MatchesClassAttr
    constructor
    · rintro ⟨u, v, heq, hp⟩
      exact ⟨u, v, heq, (attrPatAt_iff kw x v).mp hp⟩
    · rintro ⟨u, v, heq, hp⟩
      exact ⟨u, v, heq, (attrPatAt_iff kw x v).mpr hp⟩
  have hsearch3 : searchAt (classListAt x) corpus = true ↔ MatchesClassListCall x corpus := by
    rw [searchAt_iff]
    unfold MatchesClassListCall
    constructor
    · rintro ⟨u, v, heq, hp⟩
      exact ⟨u, v, heq, (classListAt_iff x v).mp hp⟩
    · rintro ⟨u, v, heq, hp⟩
      exact ⟨u, v, heq, (classListAt_iff x v).mpr hp⟩
  have hself : selReferenced corpus ('.' :: x) = classRef corpus x := by
    simp [selReferenced]
  rw [find_references_in_content, List.mem_filter, hself, classRef_iff,
    hsearch1 ("class".data), hsearch1 ("className".data), hsearch3]

/- ## Concrete evaluations of the embedding
Spot checks that the executable model behaves like the source on small
inputs (line splitting, the dangling-body-line behaviour, dollar-leading
identifiers, declaration self-reference, second-run deletions, and the
case-insensitive word-bounded class matching). -/

example : splitLines (".a \x7b\n color:red;\n\x7d".data) =
    [".a \x7b".data, " color:red;".data, "\x7d".data] := by decide

example : remove_unused_css_rules (".a \x7b\n color:red;\n\x7d".data) [".a".data] =
    " color:red;".data := by decide

example : remove_unused_js_code ("function f()\x7b\x7d".data) [] =
    "function f()\x7b\x7d".data := by decide

-- C3 scenario: a dollar-leading identifier defeats the leading word boundary.
example : find_js_references ("function $f()".data) ["$f".data] = [] := by decide
example : find_js_references ("function gf()".data) ["gf".data] = ["gf".data] := by decide

-- C4 scenario: the declaration line self-satisfies the call pattern.
example :
    get_js_identifiers ("function used()\x7b\x7d\nfunction unused()\x7b\x7d\nused();".data) =
    ["used".data, "unused".data] := by decide
example :
    find_js_references ("function used()\x7b\x7d\nfunction unused()\x7b\x7d\nused();".data)
      ["used".data, "unused".data] = ["used".data, "unused".data] := by decide
example :
    processJsFile
      (all_content [] [("function used()\x7b\x7d\nfunction unused()\x7b\x7d\nused();".data)])
      ("function used()\x7b\x7d\nfunction unused()\x7b\x7d\nused();".data) =
    (("function used()\x7b\x7d\nfunction unused()\x7b\x7d\nused();".data), none) := by decide

-- C7 scenario: a second run deletes more.
example :
    (process_files [] [] [("var alive = 1;\nvar deadv = alive;".data)]).2.map Prod.fst =
    [("var alive = 1;".data)] := by decide
example :
    (process_files [] [] [("var alive = 1;".data)]).2.map Prod.fst = [[]] := by decide

-- C2 scenarios: class attribute matching, case-insensitive and word-bounded.
example : selReferenced ("<div class=\x22card x\x22></div>".data) (".card".data) = true := by
  decide
example : selReferenced ("<div class=\x22cardio\x22></div>".data) (".card".data) = false := by
  decide
example : selReferenced ("<div CLASS = \x22a CARD\x22>".data) (".card".data) = true := by
  decide
example : selReferenced ("x.classList.add(\x27card\x27)".data) (".card".data) = true := by
  decide
example : selReferenced ("x.classList.add(\x27cardio\x27)".data) (".card".data) = false := by
  decide
